import Mathlib

/-!
RLLib `Math.h`: a shallow embedding and its verified properties

The header `src/Math.h` declares four helper classes: `Boundedness`, `Range<T>`,
`Signum` and `Random`.  They are templates over a numeric type `T`; the embedding
keeps them generic and instantiates them at

* any linearly ordered type (the integral types, read without overflow, and the
  ideal real numbers), and
* `Fp`, the values of an IEEE-754 binary floating-point type as comparison and
  classification see them (NaN, the two infinities, the two zeros, the finite
  values).

Where a claim is about `length()` or `center()`, whose subtraction is made in
`T`, the integral types are `CInt` (32-bit `int`) and `Fin (2 ^ 32)`
(`unsigned int`), with a subtraction that wraps, and the floating-point type is
`Flt D rnd`, with a subtraction that rounds.

Arithmetic on `float` and `double` comes in two readings.  Where rounding cannot
change what is stated (ranges, signs, which branch a call takes) it is exact
arithmetic in a linearly ordered field `D`.  Where it can, every operation is
followed by a rounding `rnd : D → D`, a parameter of which the theorems assume
only what IEEE-754 rounding to nearest satisfies; `roundFloat` is that rounding
on the rationals and is what the concrete evaluations use.  The library functions
`sqrt`, `log` and `exp` of `<cmath>` and its constant `M_PI`, the generators
`rand` and `drand48` of `<cstdlib>` and the bound `RAND_MAX` are parameters.
Where a claim is about the real functions they are instantiated at `ℝ`.
-/

namespace RLLib

/-! ## The C++ standard library pieces the header relies on -/

/-- Standard-library `std::max(a, b)`, which is `(a < b) ? b : a`. -/
def stdMax {T : Type} [LT T] [DecidableRel ((· < ·) : T → T → Prop)] (a b : T) : T :=
  if a < b then b else a

/-- Standard-library `std::min(a, b)`, which is `(b < a) ? b : a`. -/
def stdMin {T : Type} [LT T] [DecidableRel ((· < ·) : T → T → Prop)] (a b : T) : T :=
  if b < a then b else a

/-- Values of an IEEE-754 binary floating-point type, up to what the relational
operators and `isnan`/`isinf` can observe.  `fin q` is the finite value `q` (with
`fin 0` the positive zero); every representable finite value is a rational, so
`fin` over all of `ℚ` contains them all. -/
inductive Fp where
  | nan : Fp
  | negInf : Fp
  | negZero : Fp
  | fin (q : ℚ) : Fp
  | posInf : Fp
  deriving DecidableEq

namespace Fp

/-- Position of a value on the extended rational line; `none` for NaN, which is
unordered.  Both zeros sit at `0`. -/
def ord : Fp → Option (WithBot (WithTop ℚ))
  | nan => none
  | negInf => some ⊥
  | negZero => some ((0 : ℚ) : WithTop ℚ)
  | fin q => some ((q : WithTop ℚ) : WithBot (WithTop ℚ))
  | posInf => some ((⊤ : WithTop ℚ) : WithBot (WithTop ℚ))

/-- IEEE `a < b`: false as soon as one operand is NaN. -/
def ltb (a b : Fp) : Bool :=
  match a.ord, b.ord with
  | some x, some y => decide (x < y)
  | _, _ => false

/-- IEEE `a <= b`: false as soon as one operand is NaN. -/
def leb (a b : Fp) : Bool :=
  match a.ord, b.ord with
  | some x, some y => decide (x ≤ y)
  | _, _ => false

/-- IEEE `a == b`: false as soon as one operand is NaN, true on `-0.0 == 0.0`. -/
def eqb (a b : Fp) : Bool :=
  match a.ord, b.ord with
  | some x, some y => decide (x = y)
  | _, _ => false

instance : LT Fp := ⟨fun a b => ltb a b = true⟩

instance : LE Fp := ⟨fun a b => leb a b = true⟩

instance : Zero Fp := ⟨fin 0⟩

instance : DecidableRel ((· < ·) : Fp → Fp → Prop) :=
  fun a b => inferInstanceAs (Decidable (ltb a b = true))

instance : DecidableRel ((· ≤ ·) : Fp → Fp → Prop) :=
  fun a b => inferInstanceAs (Decidable (leb a b = true))

end Fp

/-! ## `Range<T>` -/

/-- The class `Range<T>`: its two private members. -/
structure Range (T : Type) where
  minv : T
  maxv : T

namespace Range

variable {T : Type}

/-- `Range::bound`: `std::max(minv, std::min(maxv, value))`. -/
def bound [LT T] [DecidableRel ((· < ·) : T → T → Prop)] (r : Range T) (value : T) : T :=
  stdMax r.minv (stdMin r.maxv value)

/-- `Range::in`: `value >= minv && value <= maxv`. -/
def in_ [LE T] [DecidableRel ((· ≤ ·) : T → T → Prop)] (r : Range T) (value : T) : Bool :=
  decide (value ≥ r.minv) && decide (value ≤ r.maxv)

/-- `Range::length`: `maxv - minv`. -/
def length [Sub T] (r : Range T) : T :=
  r.maxv - r.minv

/-- `Range::min`. -/
def min (r : Range T) : T :=
  r.minv

/-- `Range::max`. -/
def max (r : Range T) : T :=
  r.maxv

end Range

/-- The integer nearest to `q`, the even one of the two when `q` lies half-way
between two integers. -/
def roundHalfEven (q : ℚ) : ℤ :=
  if q - (Int.floor q : ℚ) < 1 / 2 then Int.floor q
  else if 1 / 2 < q - (Int.floor q : ℚ) then Int.floor q + 1
  else if Int.floor q % 2 = 0 then Int.floor q else Int.floor q + 1

/-- Rounding to the nearest binary floating-point number with `p` significant bits,
ties to even (the IEEE-754 default), with no bound on the exponent: `q` is scaled
by the power of two that brings its magnitude into `[2^(p-1), 2^p)`, rounded to an
integer and scaled back.  `roundFloat 53` is the rounding of `double` and
`roundFloat 24` the rounding of `float`, away from overflow and underflow. -/
def roundFloat (p : ℕ) (q : ℚ) : ℚ :=
  if q = 0 then 0
  else (roundHalfEven (q / (2 : ℚ) ^ (Int.log 2 |q| - ((p : ℤ) - 1))) : ℚ)
    * (2 : ℚ) ^ (Int.log 2 |q| - ((p : ℤ) - 1))

/-! ## Machine types as instances of `T` -/

/-- The value in `[-2^31, 2^31)` that is congruent to `n` modulo `2^32`. -/
def wrapInt (n : Int) : Int :=
  (n + 2 ^ 31) % 2 ^ 32 - 2 ^ 31

/-- Values of the 32-bit two's complement type `int`.  Its subtraction wraps
around on overflow, which is what the usual compilers produce (the language
leaves signed overflow undefined). -/
structure CInt where
  val : Int
  deriving DecidableEq

/-- Subtraction of `int`. -/
instance : Sub CInt := ⟨fun a b => ⟨wrapInt (a.val - b.val)⟩⟩

/-- Values of a binary floating-point type (`float`, `double`) whose operations
round their exact result with `rnd`. -/
structure Flt (D : Type) (rnd : D → D) where
  val : D

/-- Subtraction of a floating-point type: the exact difference, rounded. -/
instance (D : Type) [LinearOrderedField D] (rnd : D → D) : Sub (Flt D rnd) :=
  ⟨fun a b => ⟨rnd (a.val - b.val)⟩⟩

/-- Standard-library `std::numeric_limits<T>::min()` and `max()`. -/
structure NumericLimits (T : Type) where
  min : T
  max : T

/-- Limits of `int` (32 bits, two's complement): the most negative and the
largest value. -/
def intLimits : NumericLimits Int where
  min := -2 ^ 31
  max := 2 ^ 31 - 1

/-- Limits of `float` (binary32).  For a floating-point type `min()` is the
smallest positive normalised value, `FLT_MIN`; `max()` is `FLT_MAX`. -/
def floatLimits : NumericLimits Fp where
  min := Fp.fin (1 / 2 ^ 126)
  max := Fp.fin ((2 ^ 24 - 1) * 2 ^ 104)

/-- Limits of `double` (binary64): `DBL_MIN` and `DBL_MAX`. -/
def doubleLimits : NumericLimits Fp where
  min := Fp.fin (1 / 2 ^ 1022)
  max := Fp.fin ((2 ^ 53 - 1) * 2 ^ 971)

/-- The constructor `Range(minv = numeric_limits<T>::min(), maxv =
numeric_limits<T>::max())` called with no argument. -/
def Range.default {T : Type} (l : NumericLimits T) : Range T where
  minv := l.min
  maxv := l.max

/-! ## `Signum` -/

/-- `Signum::valueOf`: `(T(0) < val) - (val < T(0))`, each comparison promoted
from `bool` to `int`. -/
def Signum.valueOf {T : Type} [LT T] [Zero T] [DecidableRel ((· < ·) : T → T → Prop)]
    (val : T) : Int :=
  (if (0 : T) < val then 1 else 0) - (if val < (0 : T) then 1 else 0)

/-! ## `Boundedness` -/

/-- The classification functions `isnan` and `isinf` of `<cmath>` at type `T`. -/
class Classify (T : Type) where
  isnan : T → Bool
  isinf : T → Bool

/-- Classification of a floating-point value. -/
instance : Classify Fp where
  isnan := fun v => match v with
    | Fp.nan => true
    | _ => false
  isinf := fun v => match v with
    | Fp.posInf => true
    | Fp.negInf => true
    | _ => false

/-- Classification of an integral value: `<cmath>` converts it to `double`, and
the result is a finite number. -/
instance : Classify Int where
  isnan := fun _ => false
  isinf := fun _ => false

/-- `Boundedness::checkValue`: `!isnan(value) && !isinf(value)`. -/
def Boundedness.checkValue {T : Type} [Classify T] (value : T) : Bool :=
  !Classify.isnan value && !Classify.isinf value

/-! ## `Random` -/

namespace Random

variable {D : Type} [LinearOrderedField D]

/-- `Random::randomFloat` when `rand()` returns `d`:
`float(rand()) * (1.f / static_cast<float>(RAND_MAX))`. -/
def randomFloat (RAND_MAX : ℕ) (d : ℕ) : D :=
  (d : D) * (1 / (RAND_MAX : D))

/-- `Random::randomDouble` when `rand()` returns `d`: `double(rand()) / RAND_MAX`. -/
def randomDouble (RAND_MAX : ℕ) (d : ℕ) : D :=
  (d : D) / (RAND_MAX : D)

/-- The `do ... while (r >= 1.0 || r == 0)` loop of `Random::nextNormalGaussian`.
`rand k` is the value of the `k`-th call of `rand()` (counting from 0), `calls`
the number of calls made so far, and `fuel` bounds the number of iterations.  On
exit the loop yields `v1`, `r` and the new number of calls. -/
def nextNormalGaussianLoop (RAND_MAX : ℕ) (rand : ℕ → ℕ) : ℕ → ℕ → Option (D × D × ℕ)
  | 0, _ => none
  | fuel + 1, calls =>
    let v1 : D := 2 * randomDouble RAND_MAX (rand calls) - 1
    let v2 : D := 2 * randomDouble RAND_MAX (rand (calls + 1)) - 1
    let r : D := v1 * v1 + v2 * v2
    if r ≥ 1 ∨ r = 0 then nextNormalGaussianLoop RAND_MAX rand fuel (calls + 2)
    else some (v1, r, calls + 2)

/-- The value of the expression `2.0 * randomDouble() - 1.0` when the call of
`randomDouble()` in it is the `p`-th call of `rand()` (counting from 0). -/
def candidate (RAND_MAX : ℕ) (rand : ℕ → ℕ) (p : ℕ) : D :=
  2 * randomDouble RAND_MAX (rand p) - 1

/-- The value `v1 * v1 + v2 * v2` for the pair of candidates drawn by the calls
`p` and `p + 1` of `rand()`. -/
def radius (RAND_MAX : ℕ) (rand : ℕ → ℕ) (p : ℕ) : D :=
  candidate RAND_MAX rand p * candidate RAND_MAX rand p
    + candidate RAND_MAX rand (p + 1) * candidate RAND_MAX rand (p + 1)

/-- A sample run of `rand()` with `RAND_MAX = 32767`: the first pair of draws gives
`v1 = v2 = 1` (so `r = 2`), the second gives `v1 = 16383/32767` and
`v2 = -1/32767`. -/
def sampleRand (i : ℕ) : ℕ :=
  if i < 2 then 32767 else if i = 2 then 24575 else 16383

/-- `Random::gaussianProbability`:
`exp(-0.5 * pow((x - m) / s, 2)) / (s * sqrt(2.0 * M_PI))`.  `exp` and `sqrt` are
the `<cmath>` functions and `M_PI` its constant; `pow(z, 2)` is the square. -/
def gaussianProbability (exp sqrt : D → D) (M_PI : D) (x m s : D) : D :=
  exp (-0.5 * ((x - m) / s) ^ 2) / (s * sqrt (2 * M_PI))

/-- The function-local statics `n2` and `n2_cached` of `Random::nextGaussian`,
together with the number of calls of `drand48()` made so far. -/
structure GaussState (D : Type) where
  n2 : D
  n2_cached : Int
  calls : ℕ

/-- The state before the first call: `static double n2 = 0.0` and
`static int n2_cached = 0`, no draw made. -/
def GaussState.init : GaussState D where
  n2 := 0
  n2_cached := 0
  calls := 0

/-- The `do ... while (r == 0.0 || r > 1.0)` loop of `Random::nextGaussian`.
`drand48 k` is the value of the `k`-th call of `drand48()` (counting from 0),
`calls` the number of calls made so far, and `fuel` bounds the number of
iterations.  On exit the loop yields `x`, `y`, `r` and the new number of calls. -/
def nextGaussianLoop (drand48 : ℕ → D) : ℕ → ℕ → Option (D × D × D × ℕ)
  | 0, _ => none
  | fuel + 1, calls =>
    let x : D := drand48 calls - 1
    let y : D := drand48 (calls + 1) - 1
    let r : D := x * x + y * y
    if r = 0 ∨ r > 1 then nextGaussianLoop drand48 fuel (calls + 2)
    else some (x, y, r, calls + 2)

/-- `Random::nextGaussian(mean, stddev)` as a function of the state of its
statics.  With `!n2_cached` it runs the loop, computes `d`, `n1` and `n2`, sets
`n2_cached = 1` and returns `n1 * stddev + mean`; otherwise it sets
`n2_cached = 0` and returns `n2 * stddev + mean`. -/
def nextGaussian (sqrt log : D → D) (drand48 : ℕ → D) (fuel : ℕ) (mean stddev : D)
    (s : GaussState D) : Option (D × GaussState D) :=
  if s.n2_cached = 0 then
    match nextGaussianLoop drand48 fuel s.calls with
    | none => none
    | some (x, y, r, calls') =>
      let d : D := sqrt (-2 * log r / r)
      let n1 : D := x * d
      let n2 : D := y * d
      let result : D := n1 * stddev + mean
      some (result, { n2 := n2, n2_cached := 1, calls := calls' })
  else
    some (s.n2 * stddev + mean, { n2 := s.n2, n2_cached := 0, calls := s.calls })

/-- A caller that makes the calls `nextGaussian(mean, stddev)` for the listed
arguments one after the other, with nothing in between: the returned values in
order and the final state. -/
def gaussianCalls (sqrt log : D → D) (drand48 : ℕ → D) (fuel : ℕ) :
    List (D × D) → GaussState D → Option (List D × GaussState D)
  | [], s => some ([], s)
  | (mean, stddev) :: rest, s =>
    match nextGaussian sqrt log drand48 fuel mean stddev s with
    | none => none
    | some (v, s') =>
      match gaussianCalls sqrt log drand48 fuel rest s' with
      | none => none
      | some (vs, s'') => some (v :: vs, s'')

/-- The value of the expression `drand48() - 1` when the call in it is the `p`-th
call of `drand48()` (counting from 0). -/
def gaussCandidate (drand48 : ℕ → D) (p : ℕ) : D :=
  drand48 p - 1

/-- The value `x * x + y * y` for the pair of candidates drawn by the calls `p`
and `p + 1` of `drand48()`. -/
def gaussRadius (drand48 : ℕ → D) (p : ℕ) : D :=
  gaussCandidate drand48 p * gaussCandidate drand48 p
    + gaussCandidate drand48 (p + 1) * gaussCandidate drand48 (p + 1)

/-- The rejection loop that the specification ascribes to `gaussian(mean, stddev)`
on an empty cache, in the specification's words: candidates `v1 = 2 * u - 1` and
`v2 = 2 * u' - 1` from the draws `u`, `u'`, and a pair is accepted exactly when
`0 < r < 1` for `r = v1^2 + v2^2`.  It is compared with `nextGaussianLoop`. -/
def gaussianSpecLoop (u : ℕ → D) : ℕ → ℕ → Option (D × D × ℕ)
  | 0, _ => none
  | fuel + 1, calls =>
    let v1 : D := 2 * u calls - 1
    let v2 : D := 2 * u (calls + 1) - 1
    let r : D := v1 ^ 2 + v2 ^ 2
    if 0 < r ∧ r < 1 then some (v1, r, calls + 2)
    else gaussianSpecLoop u fuel (calls + 2)

/-- The value that the specification ascribes to `gaussian(mean, stddev)` on an
empty cache: `mean + stddev * v1 * sqrt(-2 * ln(r) / r)` for the accepted pair. -/
def gaussianSpec (sqrt log : D → D) (u : ℕ → D) (fuel : ℕ) (mean stddev : D) (calls : ℕ) :
    Option D :=
  match gaussianSpecLoop u fuel calls with
  | none => none
  | some (v1, r, _) => some (mean + stddev * v1 * sqrt (-2 * log r / r))

end Random

/-! ## `Random` with rounding

The functions of `Random` once more, with every floating-point operation followed
by the rounding `rnd` of its type (`double` for the Gaussian samplers, `float`
for the two sum samplers).  The conversions of `rand()`, `RAND_MAX` and the
integer literals to `double` are exact. -/

namespace Rounded

variable {D : Type} [LinearOrderedField D]

/-- `Random::randomFloat` when `rand()` returns `d`:
`float(rand()) * (1.f / static_cast<float>(RAND_MAX))`; both conversions to
`float`, the division and the product round. -/
def randomFloat (rnd : D → D) (RAND_MAX : ℕ) (d : ℕ) : D :=
  rnd (rnd (d : D) * rnd (1 / rnd (RAND_MAX : D)))

/-- `Random::randomDouble` when `rand()` returns `d`: `double(rand()) / RAND_MAX`. -/
def randomDouble (rnd : D → D) (RAND_MAX : ℕ) (d : ℕ) : D :=
  rnd ((d : D) / (RAND_MAX : D))

/-- The `do ... while (r >= 1.0 || r == 0)` loop of `Random::nextNormalGaussian`;
the test is made on the computed `r`. -/
def nextNormalGaussianLoop (rnd : D → D) (RAND_MAX : ℕ) (rand : ℕ → ℕ) :
    ℕ → ℕ → Option (D × D × ℕ)
  | 0, _ => none
  | fuel + 1, calls =>
    let v1 : D := rnd (rnd (2 * randomDouble rnd RAND_MAX (rand calls)) - 1)
    let v2 : D := rnd (rnd (2 * randomDouble rnd RAND_MAX (rand (calls + 1))) - 1)
    let r : D := rnd (rnd (v1 * v1) + rnd (v2 * v2))
    if r ≥ 1 ∨ r = 0 then nextNormalGaussianLoop rnd RAND_MAX rand fuel (calls + 2)
    else some (v1, r, calls + 2)

/-- `Random::nextNormalGaussian`: the loop, then `fac = sqrt(-2.0 * log(r) / r)`
and `return v1 * fac`. -/
def nextNormalGaussian (rnd sqrt log : D → D) (RAND_MAX : ℕ) (rand : ℕ → ℕ)
    (fuel calls : ℕ) : Option (D × ℕ) :=
  match nextNormalGaussianLoop rnd RAND_MAX rand fuel calls with
  | none => none
  | some (v1, r, calls') =>
    let fac : D := sqrt (rnd (rnd (-2 * log r) / r))
    some (rnd (v1 * fac), calls')

/-- The computed value of `2.0 * randomDouble() - 1.0` at the `p`-th call of
`rand()`. -/
def candidate (rnd : D → D) (RAND_MAX : ℕ) (rand : ℕ → ℕ) (p : ℕ) : D :=
  rnd (rnd (2 * randomDouble rnd RAND_MAX (rand p)) - 1)

/-- The computed value of `v1 * v1 + v2 * v2` for the candidates drawn by the calls
`p` and `p + 1` of `rand()`. -/
def radius (rnd : D → D) (RAND_MAX : ℕ) (rand : ℕ → ℕ) (p : ℕ) : D :=
  rnd (rnd (candidate rnd RAND_MAX rand p * candidate rnd RAND_MAX rand p)
    + rnd (candidate rnd RAND_MAX rand (p + 1) * candidate rnd RAND_MAX rand (p + 1)))

/-- The `do ... while (r == 0.0 || r > 1.0)` loop of `Random::nextGaussian`; the
test is made on the computed `r`. -/
def nextGaussianLoop (rnd : D → D) (drand48 : ℕ → D) : ℕ → ℕ → Option (D × D × D × ℕ)
  | 0, _ => none
  | fuel + 1, calls =>
    let x : D := rnd (drand48 calls - 1)
    let y : D := rnd (drand48 (calls + 1) - 1)
    let r : D := rnd (rnd (x * x) + rnd (y * y))
    if r = 0 ∨ r > 1 then nextGaussianLoop rnd drand48 fuel (calls + 2)
    else some (x, y, r, calls + 2)

/-- `Random::nextGaussian(mean, stddev)` as a function of the state of its
statics. -/
def nextGaussian (rnd sqrt log : D → D) (drand48 : ℕ → D) (fuel : ℕ) (mean stddev : D)
    (s : Random.GaussState D) : Option (D × Random.GaussState D) :=
  if s.n2_cached = 0 then
    match nextGaussianLoop rnd drand48 fuel s.calls with
    | none => none
    | some (x, y, r, calls') =>
      let d : D := sqrt (rnd (rnd (-2 * log r) / r))
      let n1 : D := rnd (x * d)
      let n2 : D := rnd (y * d)
      let result : D := rnd (rnd (n1 * stddev) + mean)
      some (result, { n2 := n2, n2_cached := 1, calls := calls' })
  else
    some (rnd (rnd (s.n2 * stddev) + mean), { n2 := s.n2, n2_cached := 0, calls := s.calls })

/-- The computed value of `drand48() - 1` at the `p`-th call of `drand48()`. -/
def gaussCandidate (rnd : D → D) (drand48 : ℕ → D) (p : ℕ) : D :=
  rnd (drand48 p - 1)

/-- The computed value of `x * x + y * y` for the candidates drawn by the calls `p`
and `p + 1` of `drand48()`. -/
def gaussRadius (rnd : D → D) (drand48 : ℕ → D) (p : ℕ) : D :=
  rnd (rnd (gaussCandidate rnd drand48 p * gaussCandidate rnd drand48 p)
    + rnd (gaussCandidate rnd drand48 (p + 1) * gaussCandidate rnd drand48 (p + 1)))

/-- The factor `d = sqrt(-2.0 * log(r) / r)` as computed from `r`. -/
def polarFactor (rnd sqrt log : D → D) (r : D) : D :=
  sqrt (rnd (rnd (-2 * log r) / r))

/-- A run of `rand()` with `RAND_MAX = 2147483647` on which the rounding decides
both tests: for the first pair of draws `v1 * v1 + v2 * v2` is below `1` but is
computed as `1.0`, for the second it is above `1` but is computed as
`0.9999999999999999`. -/
def sampleRand (i : ℕ) : ℕ :=
  if i = 0 then 2146857911 else if i = 1 then 1110393785
  else if i = 2 then 2147482294 else 1075446389

/-- A run of `drand48()`: the first draw is `0.75`, the others are `0.5`. -/
def sampleDrand48 (i : ℕ) : ℚ :=
  if i = 0 then 3 / 4 else 1 / 2

/-- The values which `log` of the C library (glibc, `double`) returns at the
arguments that the sample runs reach: `0.3125`, `0.125`, `0.5` and
`0.9999999999999999`.  The other arguments are not reached and are sent to `0`. -/
def sampleLog (x : ℚ) : ℚ :=
  if x = 5 / 16 then -5238365553616555 / 4503599627370496
  else if x = 1 / 8 then -4682486076124019 / 2251799813685248
  else if x = 1 / 2 then -6243314768165359 / 9007199254740992
  else if x = 9007199254740991 / 9007199254740992 then -1 / 9007199254740992
  else 0

/-- The values which `sqrt` of the C library (`double`, correctly rounded) returns
at the arguments that the sample runs reach.  The other arguments are not
reached and are sent to `0`. -/
def sampleSqrt (x : ℚ) : ℚ :=
  if x = 1047673110723311 / 140737488355328 then 6143810043326269 / 2251799813685248
  else if x = 4682486076124019 / 140737488355328 then 6494311749153973 / 1125899906842624
  else if x = 6243314768165359 / 2251799813685248 then 7498985273150791 / 4503599627370496
  else if x = 4503599627370497 / 20282409603651670423947251286016 then 1 / 67108864
  else 0

/-- The value which `sqrt` returns at `6.0f` in `float`, `2.44948983`.  The other
arguments are not reached and are sent to `0`. -/
def sampleSqrtf (x : ℚ) : ℚ :=
  if x = 6 then 10273905 / 4194304 else 0

end Rounded

/-! ## Lemmas on the floating-point order -/

theorem Fp.lt_iff (a b : Fp) :
    a < b ↔ ∃ x y, a.ord = some x ∧ b.ord = some y ∧ x < y := by
  show Fp.ltb a b = true ↔ _
  unfold Fp.ltb
  cases ha : a.ord <;> cases hb : b.ord <;> simp

theorem Fp.le_iff (a b : Fp) :
    a ≤ b ↔ ∃ x y, a.ord = some x ∧ b.ord = some y ∧ x ≤ y := by
  show Fp.leb a b = true ↔ _
  unfold Fp.leb
  cases ha : a.ord <;> cases hb : b.ord <;> simp

/-! ## Clamping -/

theorem Range.bound_mem_linear {T : Type} [LinearOrder T] (r : Range T) (x : T)
    (h : r.minv ≤ r.maxv) : r.minv ≤ r.bound x ∧ r.bound x ≤ r.maxv := by
  unfold Range.bound stdMax stdMin
  split_ifs with h1 h2 h3
  · exact ⟨h2.le, h1.le⟩
  · exact ⟨le_refl _, h⟩
  · exact ⟨h, le_refl _⟩
  · exact ⟨le_refl _, h⟩

theorem Range.bound_mem_fp (r : Range Fp) (x : Fp)
    (h : r.minv ≤ r.maxv) : r.minv ≤ r.bound x ∧ r.bound x ≤ r.maxv := by
  obtain ⟨a, b, ha, hb, hab⟩ := (Fp.le_iff _ _).1 h
  have haa : r.minv ≤ r.minv := (Fp.le_iff _ _).2 ⟨a, a, ha, ha, le_refl _⟩
  have hbb : r.maxv ≤ r.maxv := (Fp.le_iff _ _).2 ⟨b, b, hb, hb, le_refl _⟩
  unfold Range.bound stdMax stdMin
  split_ifs with h1 h2 h3
  · obtain ⟨c, b', hc, hb', hcb⟩ := (Fp.lt_iff _ _).1 h1
    obtain ⟨a', c', ha', hc', hac⟩ := (Fp.lt_iff _ _).1 h2
    exact ⟨(Fp.le_iff _ _).2 ⟨a', c', ha', hc', hac.le⟩,
      (Fp.le_iff _ _).2 ⟨c, b', hc, hb', hcb.le⟩⟩
  · exact ⟨haa, h⟩
  · exact ⟨h, hbb⟩
  · exact ⟨haa, h⟩

theorem Fp.le_refl_of_le_left {a b : Fp} (h : a ≤ b) : a ≤ a := by
  obtain ⟨x, _, hx, _, _⟩ := (Fp.le_iff _ _).1 h
  exact (Fp.le_iff _ _).2 ⟨x, x, hx, hx, le_refl _⟩

theorem Fp.le_refl_of_le_right {a b : Fp} (h : a ≤ b) : b ≤ b := by
  obtain ⟨_, y, _, hy, _⟩ := (Fp.le_iff _ _).1 h
  exact (Fp.le_iff _ _).2 ⟨y, y, hy, hy, le_refl _⟩

theorem Fp.eqb_iff (a b : Fp) :
    Fp.eqb a b = true ↔ ∃ x, a.ord = some x ∧ b.ord = some x := by
  unfold Fp.eqb
  cases ha : a.ord <;> cases hb : b.ord <;> simp [eq_comm]

theorem stdMax_eq_max {T : Type} [LinearOrder T] (a b : T) : stdMax a b = Max.max a b := by
  unfold stdMax
  split_ifs with h
  · exact (max_eq_right h.le).symm
  · exact (max_eq_left (not_lt.1 h)).symm

theorem stdMin_eq_min {T : Type} [LinearOrder T] (a b : T) : stdMin a b = Min.min a b := by
  unfold stdMin
  split_ifs with h
  · exact (min_eq_right h.le).symm
  · exact (min_eq_left (not_lt.1 h)).symm

theorem Range.bound_of_le_minv {T : Type} [LinearOrder T] (r : Range T) (x : T)
    (h : r.minv ≤ r.maxv) (hx : x ≤ r.minv) : r.bound x = r.minv := by
  unfold Range.bound
  rw [stdMax_eq_max, stdMin_eq_min, min_eq_right (hx.trans h), max_eq_left hx]

theorem Range.bound_of_maxv_le {T : Type} [LinearOrder T] (r : Range T) (x : T)
    (h : r.minv ≤ r.maxv) (hx : r.maxv ≤ x) : r.bound x = r.maxv := by
  unfold Range.bound
  rw [stdMax_eq_max, stdMin_eq_min, min_eq_left hx, max_eq_right h]

theorem Range.bound_fp_of_le_minv (r : Range Fp) (x : Fp)
    (h : r.minv ≤ r.maxv) (hx : x ≤ r.minv) : Fp.eqb (r.bound x) r.minv = true := by
  obtain ⟨a, _, ha, _, _⟩ := (Fp.le_iff _ _).1 h
  obtain ⟨c, a', hc, ha', hca⟩ := (Fp.le_iff _ _).1 hx
  have haa : Fp.eqb r.minv r.minv = true := (Fp.eqb_iff _ _).2 ⟨a, ha, ha⟩
  unfold Range.bound stdMax stdMin
  split_ifs with h1 h2 h3
  · obtain ⟨a'', c', ha'', hc', hac⟩ := (Fp.lt_iff _ _).1 h2
    rw [hc] at hc'
    rw [ha'] at ha''
    cases hc'
    cases ha''
    exact absurd hac (not_lt.2 hca)
  · exact haa
  · obtain ⟨a'', b', ha'', hb', hab⟩ := (Fp.lt_iff _ _).1 h3
    rw [ha'] at ha''
    cases ha''
    exact absurd ((Fp.lt_iff _ _).2 ⟨c, b', hc, hb', lt_of_le_of_lt hca hab⟩) h1
  · exact haa

theorem Range.bound_fp_of_maxv_le (r : Range Fp) (x : Fp)
    (h : r.minv ≤ r.maxv) (hx : r.maxv ≤ x) : Fp.eqb (r.bound x) r.maxv = true := by
  obtain ⟨a, b, ha, hb, hab⟩ := (Fp.le_iff _ _).1 h
  obtain ⟨b', c, hb', hc, hbc⟩ := (Fp.le_iff _ _).1 hx
  have hbb : Fp.eqb r.maxv r.maxv = true := (Fp.eqb_iff _ _).2 ⟨b, hb, hb⟩
  unfold Range.bound stdMax stdMin
  split_ifs with h1 h2 h3
  · obtain ⟨c', b'', hc', hb'', hcb⟩ := (Fp.lt_iff _ _).1 h1
    rw [hc] at hc'
    rw [hb'] at hb''
    cases hc'
    cases hb''
    exact absurd hcb (not_lt.2 hbc)
  · obtain ⟨c', b'', hc', hb'', hcb⟩ := (Fp.lt_iff _ _).1 h1
    rw [hc] at hc'
    rw [hb'] at hb''
    cases hc'
    cases hb''
    exact absurd hcb (not_lt.2 hbc)
  · exact hbb
  · refine (Fp.eqb_iff _ _).2 ⟨a, ha, ?_⟩
    have : ¬ a < b := fun hlt => h3 ((Fp.lt_iff _ _).2 ⟨a, b, ha, hb, hlt⟩)
    rw [hb, le_antisymm hab (not_lt.1 this)]

/-- C1: for every range with `minv <= maxv` and every value `x`, the clamped value
`bound(x)` lies in the closed interval `[minv, maxv]`.  It holds at every linearly
ordered `T` and at the floating-point values with the IEEE comparisons (there `x`
may be NaN or infinite; `bound(NaN)` is one of the two bounds). -/
theorem Range.bound_in_interval :
    (∀ (T : Type) [LinearOrder T] (r : Range T) (x : T),
      r.minv ≤ r.maxv → r.minv ≤ r.bound x ∧ r.bound x ≤ r.maxv) ∧
    (∀ (r : Range Fp) (x : Fp),
      r.minv ≤ r.maxv → r.minv ≤ r.bound x ∧ r.bound x ≤ r.maxv) :=
  ⟨fun _ _ r x h => Range.bound_mem_linear r x h, fun r x h => Range.bound_mem_fp r x h⟩

/-- Witness of C1: the integer range `[0, 10]` clamps `15`, and the floating-point
range `[-1, 1]` clamps NaN, into the interval. -/
theorem Range.bound_in_interval_witness :
    ((0 : Int) ≤ Range.bound ⟨0, 10⟩ 15 ∧ Range.bound ⟨0, 10⟩ 15 ≤ (10 : Int)) ∧
    (Fp.fin (-1) ≤ Range.bound ⟨Fp.fin (-1), Fp.fin 1⟩ Fp.nan ∧
      Range.bound ⟨Fp.fin (-1), Fp.fin 1⟩ Fp.nan ≤ Fp.fin 1) :=
  ⟨Range.bound_in_interval.1 Int ⟨0, 10⟩ 15 (by decide),
   Range.bound_in_interval.2 ⟨Fp.fin (-1), Fp.fin 1⟩ Fp.nan (by decide)⟩

/-- C2: `bound(x)` is `max(minv, min(maxv, x))`, and on a range with
`minv <= maxv` it replaces a value at or below `minv` by `minv` and a value at or
above `maxv` by `maxv`; in particular `bound(minv - 1) == minv` and
`bound(maxv + 1) == maxv`.  On the floating-point values `==` is the IEEE
equality (which identifies the two zeros) and `x` ranges over the infinities too;
`minv - 1` and `maxv + 1` are instances of `x <= minv` and `maxv <= x` there. -/
theorem Range.bound_eq_clamp :
    (∀ (T : Type) [LinearOrder T] (r : Range T) (x : T),
      r.bound x = Max.max r.minv (Min.min r.maxv x) ∧
      (r.minv ≤ r.maxv →
        (x ≤ r.minv → r.bound x = r.minv) ∧ (r.maxv ≤ x → r.bound x = r.maxv))) ∧
    (∀ (T : Type) [LinearOrderedRing T] (r : Range T), r.minv ≤ r.maxv →
      r.bound (r.minv - 1) = r.minv ∧ r.bound (r.maxv + 1) = r.maxv) ∧
    (∀ (r : Range Fp) (x : Fp),
      r.bound x = stdMax r.minv (stdMin r.maxv x) ∧
      (r.minv ≤ r.maxv →
        (x ≤ r.minv → Fp.eqb (r.bound x) r.minv = true) ∧
        (r.maxv ≤ x → Fp.eqb (r.bound x) r.maxv = true))) := by
  refine ⟨fun T _ r x => ⟨?_, fun h => ⟨Range.bound_of_le_minv r x h,
    Range.bound_of_maxv_le r x h⟩⟩, fun T _ r h => ⟨?_, ?_⟩, fun r x => ⟨rfl, fun h =>
    ⟨Range.bound_fp_of_le_minv r x h, Range.bound_fp_of_maxv_le r x h⟩⟩⟩
  · unfold Range.bound
    rw [stdMax_eq_max, stdMin_eq_min]
  · exact Range.bound_of_le_minv r _ h (sub_le_self _ zero_le_one)
  · exact Range.bound_of_maxv_le r _ h (le_add_of_nonneg_right zero_le_one)

/-- Witness of C2: on the integer range `[3, 7]`, `bound(2) == 3` and
`bound(8) == 7`; on the floating-point range `[-0.0, 0.0]` the value `+inf` is
replaced by a zero. -/
theorem Range.bound_eq_clamp_witness :
    (Range.bound ⟨3, 7⟩ ((3 : Int) - 1) = 3 ∧ Range.bound ⟨3, 7⟩ ((7 : Int) + 1) = 7) ∧
    Fp.eqb (Range.bound ⟨Fp.negZero, Fp.fin 0⟩ Fp.posInf) (Fp.fin 0) = true :=
  ⟨Range.bound_eq_clamp.2.1 Int ⟨3, 7⟩ (by decide),
   ((Range.bound_eq_clamp.2.2 ⟨Fp.negZero, Fp.fin 0⟩ Fp.posInf).2 (by decide)).2 (by decide)⟩

/-- C3: `in(x)` is true exactly when `minv <= x` and `x <= maxv`; hence on a range
with `minv <= maxv` both end points are members.  The first part holds at every
type with a decidable `<=`, the floating-point values included. -/
theorem Range.in_iff_between :
    (∀ (T : Type) [LE T] [DecidableRel ((· ≤ ·) : T → T → Prop)] (r : Range T) (x : T),
      r.in_ x = true ↔ r.minv ≤ x ∧ x ≤ r.maxv) ∧
    (∀ (T : Type) [LinearOrder T] (r : Range T), r.minv ≤ r.maxv →
      r.in_ r.minv = true ∧ r.in_ r.maxv = true) ∧
    (∀ (r : Range Fp), r.minv ≤ r.maxv →
      r.in_ r.minv = true ∧ r.in_ r.maxv = true) := by
  refine ⟨fun T _ _ r x => ?_, fun T _ r h => ?_, fun r h => ?_⟩
  · simp [Range.in_]
  · simp [Range.in_, h]
  · have h1 := Fp.le_refl_of_le_left h
    have h2 := Fp.le_refl_of_le_right h
    simp [Range.in_, h, h1, h2]

/-- Witness of C3: both end points of the integer range `[-2, 5]` and of the
floating-point range `[-inf, 0.0]` are members. -/
theorem Range.in_iff_between_witness :
    (Range.in_ ⟨-2, 5⟩ (-2 : Int) = true ∧ Range.in_ ⟨-2, 5⟩ (5 : Int) = true) ∧
    (Range.in_ ⟨Fp.negInf, Fp.fin 0⟩ Fp.negInf = true ∧
      Range.in_ ⟨Fp.negInf, Fp.fin 0⟩ (Fp.fin 0) = true) :=
  ⟨Range.in_iff_between.2.1 Int ⟨-2, 5⟩ (by decide),
   Range.in_iff_between.2.2 ⟨Fp.negInf, Fp.fin 0⟩ (by decide)⟩

theorem Fp.not_lt_of_lt {a b : Fp} (h : a < b) : ¬ b < a := by
  intro h'
  obtain ⟨x, y, hx, hy, hxy⟩ := (Fp.lt_iff _ _).1 h
  obtain ⟨y', x', hy', hx', hyx⟩ := (Fp.lt_iff _ _).1 h'
  rw [hx] at hx'
  rw [hy] at hy'
  cases hx'
  cases hy'
  exact lt_asymm hxy hyx

theorem Fp.lt_irrefl_of_eqb {a b : Fp} (h : Fp.eqb a b = true) : ¬ a < b ∧ ¬ b < a := by
  obtain ⟨x, hx, hy⟩ := (Fp.eqb_iff _ _).1 h
  constructor
  · intro h'
    obtain ⟨x', y', hx', hy', hlt⟩ := (Fp.lt_iff _ _).1 h'
    rw [hx] at hx'
    rw [hy] at hy'
    cases hx'
    cases hy'
    exact lt_irrefl _ hlt
  · intro h'
    obtain ⟨x', y', hx', hy', hlt⟩ := (Fp.lt_iff _ _).1 h'
    rw [hy] at hx'
    rw [hx] at hy'
    cases hx'
    cases hy'
    exact lt_irrefl _ hlt

/-- C4: `Signum::valueOf(v)` is `+1` if `v > 0`, `-1` if `v < 0` and `0` if
`v == 0`, so it is always one of `-1`, `0`, `+1`; `valueOf(5) == 1`,
`valueOf(-5) == -1`, `valueOf(0) == 0` and `valueOf(-0.0) == 0`.  It holds at
every linearly ordered `T` and at the floating-point values with the IEEE
comparisons. -/
theorem Signum.valueOf_sign :
    (∀ (T : Type) [LinearOrder T] [Zero T] (v : T),
      (0 < v → Signum.valueOf v = 1) ∧ (v < 0 → Signum.valueOf v = -1) ∧
      (v = 0 → Signum.valueOf v = 0) ∧
      (Signum.valueOf v = -1 ∨ Signum.valueOf v = 0 ∨ Signum.valueOf v = 1)) ∧
    (∀ (v : Fp),
      (0 < v → Signum.valueOf v = 1) ∧ (v < 0 → Signum.valueOf v = -1) ∧
      (Fp.eqb v 0 = true → Signum.valueOf v = 0) ∧
      (Signum.valueOf v = -1 ∨ Signum.valueOf v = 0 ∨ Signum.valueOf v = 1)) ∧
    (Signum.valueOf (5 : Int) = 1 ∧ Signum.valueOf (-5 : Int) = -1 ∧
      Signum.valueOf (0 : Int) = 0) ∧
    (Signum.valueOf (Fp.fin 5) = 1 ∧ Signum.valueOf (Fp.fin (-5)) = -1 ∧
      Signum.valueOf (Fp.fin 0) = 0 ∧ Signum.valueOf Fp.negZero = 0) := by
  refine ⟨fun T _ _ v => ⟨fun h => ?_, fun h => ?_, fun h => ?_, ?_⟩,
    fun v => ⟨fun h => ?_, fun h => ?_, fun h => ?_, ?_⟩, by decide, by decide⟩
  · simp [Signum.valueOf, h, not_lt_of_gt h]
  · simp [Signum.valueOf, h, not_lt_of_gt h]
  · simp [Signum.valueOf, h]
  · unfold Signum.valueOf
    split_ifs <;> simp
  · simp [Signum.valueOf, h, Fp.not_lt_of_lt h]
  · simp [Signum.valueOf, h, Fp.not_lt_of_lt h]
  · simp [Signum.valueOf, (Fp.lt_irrefl_of_eqb h).1, (Fp.lt_irrefl_of_eqb h).2]
  · unfold Signum.valueOf
    split_ifs <;> simp

/-- Witness of C4: the three cases at `7`, `-7` and `0`, and at the
floating-point values `+inf`, `-inf` and `-0.0`. -/
theorem Signum.valueOf_sign_witness :
    (Signum.valueOf (7 : Int) = 1 ∧ Signum.valueOf (-7 : Int) = -1 ∧
      Signum.valueOf (0 : Int) = 0) ∧
    (Signum.valueOf Fp.posInf = 1 ∧ Signum.valueOf Fp.negInf = -1 ∧
      Signum.valueOf Fp.negZero = 0) :=
  ⟨⟨(Signum.valueOf_sign.1 Int 7).1 (by decide), (Signum.valueOf_sign.1 Int (-7)).2.1 (by decide),
    (Signum.valueOf_sign.1 Int 0).2.2.1 rfl⟩,
   ⟨(Signum.valueOf_sign.2.1 Fp.posInf).1 (by decide),
    (Signum.valueOf_sign.2.1 Fp.negInf).2.1 (by decide),
    (Signum.valueOf_sign.2.1 Fp.negZero).2.2.1 (by decide)⟩⟩

theorem Fp.fin_lt_fin (a b : ℚ) : Fp.fin a < Fp.fin b ↔ a < b := by
  rw [Fp.lt_iff]
  simp [Fp.ord]

theorem Fp.fin_le_fin (a b : ℚ) : Fp.fin a ≤ Fp.fin b ↔ a ≤ b := by
  rw [Fp.le_iff]
  simp [Fp.ord]

theorem Fp.eqb_fin_fin (a b : ℚ) : Fp.eqb (Fp.fin a) (Fp.fin b) = decide (a = b) := by
  simp [Fp.eqb, Fp.ord]

theorem Range.bound_fin_of_lt (m M x : ℚ) (hm : x < m) (hM : x < M) :
    Range.bound ⟨Fp.fin m, Fp.fin M⟩ (Fp.fin x) = Fp.fin m := by
  have h1 : Fp.fin x < Fp.fin M := (Fp.fin_lt_fin _ _).2 hM
  have h2 : ¬ Fp.fin m < Fp.fin x := fun h => absurd ((Fp.fin_lt_fin _ _).1 h) (not_lt.2 hm.le)
  simp only [Range.bound, stdMax, stdMin, if_pos h1, if_neg h2]

/-- C5, evaluated where it fails: at a floating-point type the default lower bound
`numeric_limits<T>::min()` is the smallest positive normalised value, so the
default `Range<double>` (and `Range<float>`) contains neither `0` nor `-1` and
`bound(0)` is `DBL_MIN` (`FLT_MIN`), not `0`.  At `int` the default range does
contain every value of the type and `bound` leaves it unchanged. -/
theorem Range.default_float_excludes_zero :
    ((Range.default doubleLimits).in_ (Fp.fin 0) = false ∧
      (Range.default doubleLimits).in_ (Fp.fin (-1)) = false ∧
      (Range.default doubleLimits).bound (Fp.fin 0) = Fp.fin (1 / 2 ^ 1022) ∧
      Fp.eqb ((Range.default doubleLimits).bound (Fp.fin 0)) (Fp.fin 0) = false) ∧
    ((Range.default floatLimits).in_ (Fp.fin 0) = false ∧
      (Range.default floatLimits).in_ (Fp.fin (-1)) = false ∧
      (Range.default floatLimits).bound (Fp.fin 0) = Fp.fin (1 / 2 ^ 126) ∧
      Fp.eqb ((Range.default floatLimits).bound (Fp.fin 0)) (Fp.fin 0) = false) ∧
    (∀ x : Int, intLimits.min ≤ x → x ≤ intLimits.max →
      (Range.default intLimits).in_ x = true ∧ (Range.default intLimits).bound x = x) := by
  refine ⟨⟨?_, ?_, ?_, ?_⟩, ⟨?_, ?_, ?_, ?_⟩, fun x h1 h2 => ⟨?_, ?_⟩⟩
  · simp [Range.in_, Range.default, doubleLimits, Fp.fin_le_fin]
  · simp [Range.in_, Range.default, doubleLimits, Fp.fin_le_fin]
    norm_num
  · exact Range.bound_fin_of_lt _ _ _ (by norm_num) (by norm_num)
  · have h := Range.bound_fin_of_lt _ _ _ (by norm_num : (0 : ℚ) < 1 / 2 ^ 1022)
      (by norm_num : (0 : ℚ) < (2 ^ 53 - 1) * 2 ^ 971)
    simp only [Range.default, doubleLimits, h, Fp.eqb_fin_fin]
    norm_num
  · simp [Range.in_, Range.default, floatLimits, Fp.fin_le_fin]
  · simp [Range.in_, Range.default, floatLimits, Fp.fin_le_fin]
    norm_num
  · exact Range.bound_fin_of_lt _ _ _ (by norm_num) (by norm_num)
  · have h := Range.bound_fin_of_lt _ _ _ (by norm_num : (0 : ℚ) < 1 / 2 ^ 126)
      (by norm_num : (0 : ℚ) < (2 ^ 24 - 1) * 2 ^ 104)
    simp only [Range.default, floatLimits, h, Fp.eqb_fin_fin]
    norm_num
  · simp only [Range.in_, Range.default]
    simp [h1, h2]
  · simp only [Range.bound, Range.default]
    rw [stdMax_eq_max, stdMin_eq_min, min_eq_right h2, max_eq_right h1]

/-- Witness of C5 at `int`: the default range contains `-5` and does not move it. -/
theorem Range.default_float_excludes_zero_witness :
    (Range.default intLimits).in_ (-5) = true ∧ (Range.default intLimits).bound (-5) = -5 :=
  Range.default_float_excludes_zero.2.2 (-5) (by decide) (by decide)

/-- C7: `checkValue(v)` is true if and only if `v` is neither NaN nor an
infinity: false for NaN, `+inf` and `-inf`; true for every finite value, among
them `0`, `-0.0`, `1`, `-1` and the smallest and largest finite values of
`double` and `float`; and true for every value of an integral type. -/
theorem Boundedness.checkValue_iff_finite :
    (∀ v : Fp, Boundedness.checkValue v = true ↔ v ≠ Fp.nan ∧ v ≠ Fp.posInf ∧ v ≠ Fp.negInf) ∧
    (Boundedness.checkValue Fp.nan = false ∧ Boundedness.checkValue Fp.posInf = false ∧
      Boundedness.checkValue Fp.negInf = false) ∧
    (∀ q : ℚ, Boundedness.checkValue (Fp.fin q) = true) ∧
    (Boundedness.checkValue (Fp.fin 0) = true ∧ Boundedness.checkValue Fp.negZero = true ∧
      Boundedness.checkValue (Fp.fin 1) = true ∧ Boundedness.checkValue (Fp.fin (-1)) = true) ∧
    (Boundedness.checkValue doubleLimits.min = true ∧
      Boundedness.checkValue doubleLimits.max = true ∧
      Boundedness.checkValue (Fp.fin (-((2 ^ 53 - 1) * 2 ^ 971))) = true ∧
      Boundedness.checkValue floatLimits.min = true ∧
      Boundedness.checkValue floatLimits.max = true ∧
      Boundedness.checkValue (Fp.fin (-((2 ^ 24 - 1) * 2 ^ 104))) = true) ∧
    (∀ n : Int, Boundedness.checkValue n = true) := by
  refine ⟨fun v => ?_, ⟨rfl, rfl, rfl⟩, fun q => rfl, ⟨rfl, rfl, rfl, rfl⟩,
    ⟨rfl, rfl, rfl, rfl, rfl, rfl⟩, fun n => rfl⟩
  cases v <;> simp [Boundedness.checkValue, Classify.isnan, Classify.isinf]

/-! ## Uniform draws -/

theorem Random.randomFloat_eq_randomDouble {D : Type} [LinearOrderedField D] (M d : ℕ) :
    (Random.randomFloat M d : D) = Random.randomDouble M d := by
  unfold Random.randomFloat Random.randomDouble
  rw [mul_one_div]

theorem Random.randomDouble_bounds {D : Type} [LinearOrderedField D] (M d : ℕ) (hM : 0 < M)
    (hd : d ≤ M) : (0 : D) ≤ Random.randomDouble M d ∧ (Random.randomDouble M d : D) ≤ 1 := by
  have hM' : (0 : D) < (M : D) := by exact_mod_cast hM
  have hd' : (d : D) ≤ (M : D) := by exact_mod_cast hd
  unfold Random.randomDouble
  exact ⟨div_nonneg (Nat.cast_nonneg d) hM'.le, (div_le_one hM').2 hd'⟩

theorem Random.randomDouble_lt_iff {D : Type} [LinearOrderedField D] (M d e : ℕ) (hM : 0 < M) :
    (Random.randomDouble M d : D) < Random.randomDouble M e ↔ d < e := by
  have hM' : (0 : D) < (M : D) := by exact_mod_cast hM
  unfold Random.randomDouble
  rw [div_lt_div_iff_of_pos_right hM']
  exact Nat.cast_lt

theorem Random.randomDouble_self {D : Type} [LinearOrderedField D] (M : ℕ) (hM : 0 < M) :
    (Random.randomDouble M M : D) = 1 := by
  have hM' : (M : D) ≠ 0 := by exact_mod_cast hM.ne'
  unfold Random.randomDouble
  exact div_self hM'

/-- C8: with `0 < RAND_MAX` and a draw `0 <= d <= RAND_MAX`, `randomDouble()`, which
is `d / RAND_MAX`, and `randomFloat()`, which is `d * (1 / RAND_MAX)`, lie in the
closed interval `[0, 1]`; they are `0` at `d = 0` and `1` at `d = RAND_MAX`, and
they are monotone in `d`.  The arithmetic is exact. -/
theorem Random.uniform_in_closed_unit (D : Type) [LinearOrderedField D] (M : ℕ) (hM : 0 < M) :
    (∀ d : ℕ, d ≤ M →
      ((0 : D) ≤ Random.randomDouble M d ∧ (Random.randomDouble M d : D) ≤ 1) ∧
      ((0 : D) ≤ Random.randomFloat M d ∧ (Random.randomFloat M d : D) ≤ 1)) ∧
    ((Random.randomDouble M 0 : D) = 0 ∧ (Random.randomFloat M 0 : D) = 0) ∧
    ((Random.randomDouble M M : D) = 1 ∧ (Random.randomFloat M M : D) = 1) ∧
    (∀ d e : ℕ, d ≤ e →
      (Random.randomDouble M d : D) ≤ Random.randomDouble M e ∧
      (Random.randomFloat M d : D) ≤ Random.randomFloat M e) := by
  refine ⟨fun d hd => ?_, ?_, ?_, fun d e hde => ?_⟩
  · rw [Random.randomFloat_eq_randomDouble]
    exact ⟨Random.randomDouble_bounds M d hM hd, Random.randomDouble_bounds M d hM hd⟩
  · simp [Random.randomDouble, Random.randomFloat]
  · rw [Random.randomFloat_eq_randomDouble]
    exact ⟨Random.randomDouble_self M hM, Random.randomDouble_self M hM⟩
  · rw [Random.randomFloat_eq_randomDouble, Random.randomFloat_eq_randomDouble]
    have h : ¬ (Random.randomDouble M e : D) < Random.randomDouble M d := by
      rw [Random.randomDouble_lt_iff M e d hM]
      omega
    exact ⟨not_lt.1 h, not_lt.1 h⟩

/-- Witness of C8: with `RAND_MAX = 2147483647` the draw `RAND_MAX` itself gives
exactly `1` from both functions. -/
theorem Random.uniform_in_closed_unit_witness :
    (0 < 2147483647) ∧
    ((Random.randomDouble 2147483647 2147483647 : ℚ) = 1 ∧
      (Random.randomFloat 2147483647 2147483647 : ℚ) = 1) :=
  ⟨by norm_num, (Random.uniform_in_closed_unit ℚ 2147483647 (by norm_num)).2.2.1⟩

/-- Counterexample to C9: with `RAND_MAX = 2147483647` and the draw
`d = RAND_MAX`, neither `randomDouble()` nor `randomFloat()` is below `1`; both
are equal to `1`. -/
theorem Random.uniform_not_below_one :
    ¬ ((Random.randomDouble 2147483647 2147483647 : ℚ) < 1) ∧
    ¬ ((Random.randomFloat 2147483647 2147483647 : ℚ) < 1) := by
  constructor
  · norm_num [Random.randomDouble]
  · norm_num [Random.randomFloat]

/-- C9, amended: `randomFloat()` and `randomDouble()` produce values in the closed
interval `[0, 1]` (as the comment `// [0..1]` on both says): for every draw
`0 <= d <= RAND_MAX` the value is `>= 0` and `<= 1`, and the value `1` is
returned when `d = RAND_MAX`. -/
theorem Random.uniform_le_one (D : Type) [LinearOrderedField D] (M d : ℕ) (hM : 0 < M)
    (hd : d ≤ M) :
    ((0 : D) ≤ Random.randomDouble M d ∧ (Random.randomDouble M d : D) ≤ 1 ∧
      (d = M → (Random.randomDouble M d : D) = 1)) ∧
    ((0 : D) ≤ Random.randomFloat M d ∧ (Random.randomFloat M d : D) ≤ 1 ∧
      (d = M → (Random.randomFloat M d : D) = 1)) := by
  have h := Random.randomDouble_bounds (D := D) M d hM hd
  have h1 : d = M → (Random.randomDouble M d : D) = 1 := fun e => by
    rw [e]
    exact Random.randomDouble_self M hM
  rw [Random.randomFloat_eq_randomDouble]
  exact ⟨⟨h.1, h.2, h1⟩, ⟨h.1, h.2, h1⟩⟩

/-- Witness of C9 as amended: with `RAND_MAX = 32767` the draw `32767` gives a value
of `[0, 1]`, namely `1`. -/
theorem Random.uniform_le_one_witness :
    (0 < 32767 ∧ 32767 ≤ 32767) ∧
    ((0 : ℚ) ≤ Random.randomFloat 32767 32767 ∧ (Random.randomFloat 32767 32767 : ℚ) ≤ 1 ∧
      (32767 = 32767 → (Random.randomFloat 32767 32767 : ℚ) = 1)) :=
  ⟨by norm_num, (Random.uniform_le_one ℚ 32767 32767 (by norm_num) (by norm_num)).2⟩

/-! ## The polar method -/

theorem Random.radius_nonneg {D : Type} [LinearOrderedField D] (M : ℕ) (rand : ℕ → ℕ) (p : ℕ) :
    (0 : D) ≤ Random.radius M rand p :=
  add_nonneg (mul_self_nonneg _) (mul_self_nonneg _)

theorem Random.reject_iff {D : Type} [LinearOrderedField D] (M : ℕ) (rand : ℕ → ℕ) (p : ℕ) :
    ((Random.radius M rand p : D) ≥ 1 ∨ (Random.radius M rand p : D) = 0) ↔
      ¬ ((0 : D) < Random.radius M rand p ∧ (Random.radius M rand p : D) < 1) := by
  have h := Random.radius_nonneg (D := D) M rand p
  constructor
  · rintro (h1 | h0) ⟨hpos, hlt⟩
    · exact absurd hlt (not_lt.2 h1)
    · exact absurd h0 hpos.ne'
  · intro hn
    by_cases h1 : (Random.radius M rand p : D) ≥ 1
    · exact Or.inl h1
    · refine Or.inr (le_antisymm (not_lt.1 fun hpos => hn ⟨hpos, not_le.1 h1⟩) h)

theorem Random.nextNormalGaussianLoop_step {D : Type} [LinearOrderedField D] (M : ℕ)
    (rand : ℕ → ℕ) (fuel calls : ℕ) :
    (Random.nextNormalGaussianLoop M rand (fuel + 1) calls : Option (D × D × ℕ)) =
      if (Random.radius M rand calls : D) ≥ 1 ∨ (Random.radius M rand calls : D) = 0 then
        Random.nextNormalGaussianLoop M rand fuel (calls + 2)
      else some (Random.candidate M rand calls, Random.radius M rand calls, calls + 2) :=
  rfl

theorem Random.nextNormalGaussianLoop_accept {D : Type} [LinearOrderedField D] (M : ℕ)
    (rand : ℕ → ℕ) :
    ∀ (k fuel calls : ℕ), k < fuel →
      (∀ j < k, ¬ ((0 : D) < Random.radius M rand (calls + 2 * j) ∧
        (Random.radius M rand (calls + 2 * j) : D) < 1)) →
      ((0 : D) < Random.radius M rand (calls + 2 * k) ∧
        (Random.radius M rand (calls + 2 * k) : D) < 1) →
      (Random.nextNormalGaussianLoop M rand fuel calls : Option (D × D × ℕ)) =
        some (Random.candidate M rand (calls + 2 * k), Random.radius M rand (calls + 2 * k),
          calls + 2 * (k + 1)) := by
  intro k
  induction k with
  | zero =>
    intro fuel calls hfuel _ hacc
    obtain ⟨f, rfl⟩ : ∃ f, fuel = f + 1 := ⟨fuel - 1, by omega⟩
    rw [Random.nextNormalGaussianLoop_step, if_neg]
    · rfl
    · rw [Random.reject_iff, not_not]
      exact hacc
  | succ k ih =>
    intro fuel calls hfuel hrej hacc
    obtain ⟨f, rfl⟩ : ∃ f, fuel = f + 1 := ⟨fuel - 1, by omega⟩
    have h0 := hrej 0 (Nat.succ_pos k)
    rw [Random.nextNormalGaussianLoop_step, if_pos ((Random.reject_iff M rand calls).2 h0)]
    have hidx : ∀ j, calls + 2 + 2 * j = calls + 2 * (j + 1) := fun j => by ring
    rw [ih f (calls + 2) (by omega)]
    · rw [hidx k, hidx (k + 1)]
    · intro j hj
      rw [hidx j]
      exact hrej (j + 1) (by omega)
    · rw [hidx k]
      exact hacc

/-! ## The cached polar method -/

theorem Random.gaussRadius_nonneg {D : Type} [LinearOrderedField D] (drand48 : ℕ → D) (p : ℕ) :
    (0 : D) ≤ Random.gaussRadius drand48 p :=
  add_nonneg (mul_self_nonneg _) (mul_self_nonneg _)

theorem Random.gauss_reject_iff {D : Type} [LinearOrderedField D] (drand48 : ℕ → D) (p : ℕ) :
    (Random.gaussRadius drand48 p = 0 ∨ Random.gaussRadius drand48 p > 1) ↔
      ¬ ((0 : D) < Random.gaussRadius drand48 p ∧ Random.gaussRadius drand48 p ≤ 1) := by
  have h := Random.gaussRadius_nonneg drand48 p
  constructor
  · rintro (h0 | h1) ⟨hpos, hle⟩
    · exact absurd h0 hpos.ne'
    · exact absurd hle (not_le.2 h1)
  · intro hn
    by_cases h1 : Random.gaussRadius drand48 p > 1
    · exact Or.inr h1
    · exact Or.inl (le_antisymm (not_lt.1 fun hpos => hn ⟨hpos, not_lt.1 h1⟩) h)

theorem Random.nextGaussianLoop_step {D : Type} [LinearOrderedField D] (drand48 : ℕ → D)
    (fuel calls : ℕ) :
    Random.nextGaussianLoop drand48 (fuel + 1) calls =
      if Random.gaussRadius drand48 calls = 0 ∨ Random.gaussRadius drand48 calls > 1 then
        Random.nextGaussianLoop drand48 fuel (calls + 2)
      else some (Random.gaussCandidate drand48 calls, Random.gaussCandidate drand48 (calls + 1),
        Random.gaussRadius drand48 calls, calls + 2) :=
  rfl

theorem Random.nextGaussian_cached {D : Type} [LinearOrderedField D] (sqrt log : D → D)
    (drand48 : ℕ → D) (mean stddev : D) (s : Random.GaussState D) (fuel : ℕ)
    (hs : s.n2_cached ≠ 0) :
    Random.nextGaussian sqrt log drand48 fuel mean stddev s =
      some (s.n2 * stddev + mean, { n2 := s.n2, n2_cached := 0, calls := s.calls }) := by
  unfold Random.nextGaussian
  rw [if_neg hs]

theorem Random.nextGaussianLoop_isSome {D : Type} [LinearOrderedField D] (drand48 : ℕ → D) :
    ∀ (fuel calls : ℕ),
      (∃ k, k < fuel ∧ (0 : D) < Random.gaussRadius drand48 (calls + 2 * k) ∧
        Random.gaussRadius drand48 (calls + 2 * k) ≤ 1) →
      ∃ x y r c, Random.nextGaussianLoop drand48 fuel calls = some (x, y, r, c) := by
  intro fuel
  induction fuel with
  | zero =>
    rintro calls ⟨k, hk, _⟩
    exact absurd hk (Nat.not_lt_zero k)
  | succ f ih =>
    rintro calls ⟨k, hk, hacc⟩
    rw [Random.nextGaussianLoop_step]
    by_cases h : Random.gaussRadius drand48 calls = 0 ∨ Random.gaussRadius drand48 calls > 1
    · rw [if_pos h]
      have hk0 : k ≠ 0 := by
        rintro rfl
        exact (Random.gauss_reject_iff drand48 calls).1 h (by simpa using hacc)
      obtain ⟨k', rfl⟩ : ∃ k', k = k' + 1 := ⟨k - 1, by omega⟩
      refine ih (calls + 2) ⟨k', by omega, ?_⟩
      have hidx : calls + 2 + 2 * k' = calls + 2 * (k' + 1) := by ring
      rw [hidx]
      exact hacc
    · rw [if_neg h]
      exact ⟨_, _, _, _, rfl⟩

theorem Random.nextGaussian_flag {D : Type} [LinearOrderedField D] (sqrt log : D → D)
    (drand48 : ℕ → D) (fuel : ℕ) (mean stddev : D) (s s' : Random.GaussState D) (v : D)
    (h : Random.nextGaussian sqrt log drand48 fuel mean stddev s = some (v, s')) :
    (s.n2_cached = 0 → s'.n2_cached = 1) ∧ (s.n2_cached ≠ 0 → s'.n2_cached = 0) := by
  unfold Random.nextGaussian at h
  constructor
  · intro hs
    rw [if_pos hs] at h
    cases hl : Random.nextGaussianLoop drand48 fuel s.calls with
    | none =>
      rw [hl] at h
      cases h
    | some q =>
      obtain ⟨x, y, r, c⟩ := q
      rw [hl] at h
      cases h
      rfl
  · intro hs
    rw [if_neg hs] at h
    cases h
    rfl

theorem Random.nextGaussian_isSome {D : Type} [LinearOrderedField D] (sqrt log : D → D)
    (drand48 : ℕ → D) (fuel : ℕ) (mean stddev : D) (s : Random.GaussState D)
    (hsrc : ∀ p, ∃ k, k < fuel ∧ (0 : D) < Random.gaussRadius drand48 (p + 2 * k) ∧
      Random.gaussRadius drand48 (p + 2 * k) ≤ 1) :
    ∃ v s', Random.nextGaussian sqrt log drand48 fuel mean stddev s = some (v, s') := by
  by_cases hs : s.n2_cached = 0
  · obtain ⟨x, y, r, c, hl⟩ := Random.nextGaussianLoop_isSome drand48 fuel s.calls (hsrc s.calls)
    refine ⟨x * sqrt (-2 * log r / r) * stddev + mean,
      { n2 := y * sqrt (-2 * log r / r), n2_cached := 1, calls := c }, ?_⟩
    unfold Random.nextGaussian
    rw [if_pos hs, hl]
  · exact ⟨_, _, Random.nextGaussian_cached sqrt log drand48 mean stddev s fuel hs⟩

theorem Random.gaussianCalls_cons {D : Type} [LinearOrderedField D] (sqrt log : D → D)
    (drand48 : ℕ → D) (fuel : ℕ) (a : D × D) (rest : List (D × D)) (s s' : Random.GaussState D)
    (v : D) (h : Random.nextGaussian sqrt log drand48 fuel a.1 a.2 s = some (v, s')) :
    Random.gaussianCalls sqrt log drand48 fuel (a :: rest) s =
      (Random.gaussianCalls sqrt log drand48 fuel rest s').map (fun q => (v :: q.1, q.2)) := by
  obtain ⟨mean, stddev⟩ := a
  show (match Random.nextGaussian sqrt log drand48 fuel mean stddev s with
    | none => none
    | some (v, s') =>
      match Random.gaussianCalls sqrt log drand48 fuel rest s' with
      | none => none
      | some (vs, s'') => some (v :: vs, s'')) = _
  rw [h]
  show (match Random.gaussianCalls sqrt log drand48 fuel rest s' with
    | none => none
    | some (vs, s'') => some (v :: vs, s'')) = _
  cases Random.gaussianCalls sqrt log drand48 fuel rest s' with
  | none => rfl
  | some q => rfl

theorem Random.gaussianCalls_cons_none {D : Type} [LinearOrderedField D] (sqrt log : D → D)
    (drand48 : ℕ → D) (fuel : ℕ) (a : D × D) (rest : List (D × D)) (s : Random.GaussState D)
    (h : Random.nextGaussian sqrt log drand48 fuel a.1 a.2 s = none) :
    Random.gaussianCalls sqrt log drand48 fuel (a :: rest) s = none := by
  obtain ⟨mean, stddev⟩ := a
  show (match Random.nextGaussian sqrt log drand48 fuel mean stddev s with
    | none => none
    | some (v, s') =>
      match Random.gaussianCalls sqrt log drand48 fuel rest s' with
      | none => none
      | some (vs, s'') => some (v :: vs, s'')) = _
  rw [h]

theorem Random.gaussianCalls_flag {D : Type} [LinearOrderedField D] (sqrt log : D → D)
    (drand48 : ℕ → D) (fuel : ℕ)
    (hsrc : ∀ p, ∃ k, k < fuel ∧ (0 : D) < Random.gaussRadius drand48 (p + 2 * k) ∧
      Random.gaussRadius drand48 (p + 2 * k) ≤ 1) :
    ∀ (args : List (D × D)) (s : Random.GaussState D),
      (s.n2_cached = 0 ∨ s.n2_cached = 1) →
      ∃ results s', Random.gaussianCalls sqrt log drand48 fuel args s = some (results, s') ∧
        results.length = args.length ∧
        s'.n2_cached = (s.n2_cached + (args.length : Int)) % 2 := by
  intro args
  induction args with
  | nil =>
    intro s hs
    refine ⟨[], s, rfl, rfl, ?_⟩
    rcases hs with h | h <;> simp [h]
  | cons a rest ih =>
    intro s hs
    obtain ⟨v, s1, h1⟩ := Random.nextGaussian_isSome sqrt log drand48 fuel a.1 a.2 s hsrc
    have hf := Random.nextGaussian_flag sqrt log drand48 fuel a.1 a.2 s s1 v h1
    have hs1 : s1.n2_cached = 0 ∨ s1.n2_cached = 1 := by
      rcases hs with h | h
      · exact Or.inr (hf.1 h)
      · exact Or.inl (hf.2 (by rw [h]; decide))
    obtain ⟨rs, s2, h2, hlen, hflag⟩ := ih s1 hs1
    refine ⟨v :: rs, s2, ?_, by simp [hlen], ?_⟩
    · rw [Random.gaussianCalls_cons sqrt log drand48 fuel a rest s s1 v h1, h2]
      rfl
    · rw [hflag]
      rcases hs with h | h
      · rw [hf.1 h, h]
        simp only [List.length_cons]
        push_cast
        omega
      · rw [hf.2 (by rw [h]; decide), h]
        simp only [List.length_cons]
        push_cast
        omega

theorem Random.sqrt_arg_nonneg (r : ℝ) (h0 : 0 < r) (h1 : r ≤ 1) :
    0 ≤ -2 * Real.log r / r :=
  div_nonneg (by have := Real.log_nonpos h0.le h1; linarith) h0.le

/-! ## The Gaussian density -/

theorem Random.gaussianProbability_at_mean (m s : ℝ) :
    Random.gaussianProbability Real.exp Real.sqrt Real.pi m m s
      = 1 / (s * Real.sqrt (2 * Real.pi)) := by
  unfold Random.gaussianProbability
  rw [sub_self, zero_div]
  norm_num

/-- C14: `gaussianProbability(x, m, s)` is
`exp(-0.5 * ((x - m) / s)^2) / (s * sqrt(2 * pi))`; for every `m` and every
`s > 0` its value at `x = m` is `1 / (s * sqrt(2 * pi))`, and that is the peak:
the value at any `x` is at most the value at `m`.  Over the real numbers, with
the real `exp`, `sqrt` and `pi`. -/
theorem Random.gaussianProbability_peak :
    (∀ x m s : ℝ, Random.gaussianProbability Real.exp Real.sqrt Real.pi x m s
      = Real.exp (-0.5 * ((x - m) / s) ^ 2) / (s * Real.sqrt (2 * Real.pi))) ∧
    (∀ m s : ℝ, 0 < s →
      Random.gaussianProbability Real.exp Real.sqrt Real.pi m m s
        = 1 / (s * Real.sqrt (2 * Real.pi))) ∧
    (∀ x m s : ℝ, 0 < s →
      Random.gaussianProbability Real.exp Real.sqrt Real.pi x m s
        ≤ Random.gaussianProbability Real.exp Real.sqrt Real.pi m m s) := by
  refine ⟨fun x m s => rfl, fun m s _ => Random.gaussianProbability_at_mean m s,
    fun x m s hs => ?_⟩
  rw [Random.gaussianProbability_at_mean]
  unfold Random.gaussianProbability
  have hden : 0 < s * Real.sqrt (2 * Real.pi) :=
    mul_pos hs (Real.sqrt_pos.2 (mul_pos two_pos Real.pi_pos))
  have hexp : Real.exp (-0.5 * ((x - m) / s) ^ 2) ≤ 1 := by
    rw [Real.exp_le_one_iff]
    have := sq_nonneg ((x - m) / s)
    norm_num
    linarith
  exact div_le_div_of_nonneg_right hexp hden.le

/-- Witness of C14: the standard density (`m = 0`, `s = 1`) is `1 / sqrt(2 * pi)` at
`0` and at most that at `3`. -/
theorem Random.gaussianProbability_peak_witness :
    Random.gaussianProbability Real.exp Real.sqrt Real.pi 0 0 1
        = 1 / (1 * Real.sqrt (2 * Real.pi)) ∧
    Random.gaussianProbability Real.exp Real.sqrt Real.pi 3 0 1
        ≤ Random.gaussianProbability Real.exp Real.sqrt Real.pi 0 0 1 :=
  ⟨Random.gaussianProbability_peak.2.1 0 1 one_pos,
   Random.gaussianProbability_peak.2.2 3 0 1 one_pos⟩

/-! ## What the loops hand to the transform -/

theorem Random.nextGaussianLoop_exit {D : Type} [LinearOrderedField D] (drand48 : ℕ → D) :
    ∀ (fuel calls : ℕ) (x y r : D) (c : ℕ),
      Random.nextGaussianLoop drand48 fuel calls = some (x, y, r, c) →
      ∃ p, x = Random.gaussCandidate drand48 p ∧ y = Random.gaussCandidate drand48 (p + 1) ∧
        r = Random.gaussRadius drand48 p ∧ (0 < r ∧ r ≤ 1) ∧ c = p + 2 := by
  intro fuel
  induction fuel with
  | zero =>
    intro calls x y r c h
    cases h
  | succ f ih =>
    intro calls x y r c h
    rw [Random.nextGaussianLoop_step] at h
    by_cases hrej : Random.gaussRadius drand48 calls = 0 ∨ Random.gaussRadius drand48 calls > 1
    · rw [if_pos hrej] at h
      exact ih (calls + 2) x y r c h
    · rw [if_neg hrej] at h
      cases h
      exact ⟨calls, rfl, rfl, rfl,
        not_not.1 ((Random.gauss_reject_iff drand48 calls).not.1 hrej), rfl⟩

theorem Random.nextNormalGaussianLoop_exit {D : Type} [LinearOrderedField D] (M : ℕ)
    (rand : ℕ → ℕ) :
    ∀ (fuel calls : ℕ) (v1 r : D) (c : ℕ),
      Random.nextNormalGaussianLoop M rand fuel calls = some (v1, r, c) →
      ∃ p, v1 = Random.candidate M rand p ∧ r = Random.radius M rand p ∧
        (0 < r ∧ r < 1) ∧ c = p + 2 := by
  intro fuel
  induction fuel with
  | zero =>
    intro calls v1 r c h
    cases h
  | succ f ih =>
    intro calls v1 r c h
    rw [Random.nextNormalGaussianLoop_step] at h
    by_cases hrej : (Random.radius M rand calls : D) ≥ 1 ∨ (Random.radius M rand calls : D) = 0
    · rw [if_pos hrej] at h
      exact ih (calls + 2) v1 r c h
    · rw [if_neg hrej] at h
      cases h
      exact ⟨calls, rfl, rfl, not_not.1 ((Random.reject_iff M rand calls).not.1 hrej), rfl⟩

theorem Random.nextGaussian_le_mean_step {D : Type} [LinearOrderedField D] (sqrt log : D → D)
    (drand48 : ℕ → D) (fuel : ℕ) (hsqrt : ∀ z, 0 ≤ sqrt z)
    (hdraw : ∀ i, 0 ≤ drand48 i ∧ drand48 i < 1) (mean stddev : D) (hstd : 0 ≤ stddev)
    (s s' : Random.GaussState D) (v : D) (hn2 : s.n2 ≤ 0)
    (h : Random.nextGaussian sqrt log drand48 fuel mean stddev s = some (v, s')) :
    v ≤ mean ∧ s'.n2 ≤ 0 := by
  unfold Random.nextGaussian at h
  by_cases hs : s.n2_cached = 0
  · rw [if_pos hs] at h
    cases hl : Random.nextGaussianLoop drand48 fuel s.calls with
    | none =>
      rw [hl] at h
      cases h
    | some q =>
      obtain ⟨x, y, r, c⟩ := q
      rw [hl] at h
      cases h
      obtain ⟨p, hx, hy, _, _, _⟩ := Random.nextGaussianLoop_exit drand48 fuel s.calls x y r c hl
      have hx0 : x ≤ 0 := by
        rw [hx]
        unfold Random.gaussCandidate
        linarith [(hdraw p).2]
      have hy0 : y ≤ 0 := by
        rw [hy]
        unfold Random.gaussCandidate
        linarith [(hdraw (p + 1)).2]
      have hd := hsqrt (-2 * log r / r)
      have hn1 : x * sqrt (-2 * log r / r) ≤ 0 := mul_nonpos_of_nonpos_of_nonneg hx0 hd
      have hn2' : y * sqrt (-2 * log r / r) ≤ 0 := mul_nonpos_of_nonpos_of_nonneg hy0 hd
      refine ⟨?_, hn2'⟩
      have := mul_nonpos_of_nonpos_of_nonneg hn1 hstd
      show x * sqrt (-2 * log r / r) * stddev + mean ≤ mean
      linarith
  · rw [if_neg hs] at h
    cases h
    refine ⟨?_, hn2⟩
    have := mul_nonpos_of_nonpos_of_nonneg hn2 hstd
    show s.n2 * stddev + mean ≤ mean
    linarith

theorem Random.gaussianCalls_le_mean {D : Type} [LinearOrderedField D] (sqrt log : D → D)
    (drand48 : ℕ → D) (fuel : ℕ) (hsqrt : ∀ z, 0 ≤ sqrt z)
    (hdraw : ∀ i, 0 ≤ drand48 i ∧ drand48 i < 1) :
    ∀ (args : List (D × D)) (s s' : Random.GaussState D) (rs : List D),
      (∀ a ∈ args, 0 ≤ a.2) → s.n2 ≤ 0 →
      Random.gaussianCalls sqrt log drand48 fuel args s = some (rs, s') →
      List.Forall₂ (fun v a => v ≤ a.1) rs args := by
  intro args
  induction args with
  | nil =>
    intro s s' rs _ _ h
    cases h
    exact List.Forall₂.nil
  | cons a rest ih =>
    intro s s' rs hstd hn2 h
    cases hn : Random.nextGaussian sqrt log drand48 fuel a.1 a.2 s with
    | none =>
      rw [Random.gaussianCalls_cons_none sqrt log drand48 fuel a rest s hn] at h
      cases h
    | some q =>
      obtain ⟨v, s1⟩ := q
      rw [Random.gaussianCalls_cons sqrt log drand48 fuel a rest s s1 v hn] at h
      obtain ⟨hv, hs1⟩ := Random.nextGaussian_le_mean_step sqrt log drand48 fuel hsqrt hdraw
        a.1 a.2 (hstd a (List.mem_cons_self a rest)) s s1 v hn2 hn
      cases hr : Random.gaussianCalls sqrt log drand48 fuel rest s1 with
      | none =>
        rw [hr] at h
        cases h
      | some q' =>
        obtain ⟨rs', s2⟩ := q'
        rw [hr] at h
        cases h
        exact List.Forall₂.cons hv
          (ih s1 s2 rs' (fun b hb => hstd b (List.mem_cons_of_mem a hb)) hs1 hr)

/-- C17: with a non-negative `sqrt`, draws of `drand48()` in `[0, 1)` and
`stddev >= 0` in every call, every value returned by `nextGaussian(mean, stddev)`
in a run of calls from the initial state, freshly computed or taken from the
cache, is at most the `mean` of its call: both candidates `x = drand48() - 1` and
`y = drand48() - 1` are negative and the factor `d` is non-negative. -/
theorem Random.nextGaussian_le_mean (D : Type) [LinearOrderedField D] (sqrt log : D → D)
    (drand48 : ℕ → D) (fuel : ℕ) (hsqrt : ∀ z, 0 ≤ sqrt z)
    (hdraw : ∀ i, 0 ≤ drand48 i ∧ drand48 i < 1)
    (args : List (D × D)) (hstd : ∀ a ∈ args, 0 ≤ a.2)
    (rs : List D) (s : Random.GaussState D)
    (h : Random.gaussianCalls sqrt log drand48 fuel args Random.GaussState.init = some (rs, s)) :
    List.Forall₂ (fun v a => v ≤ a.1) rs args ∧
    (∀ p, Random.gaussCandidate drand48 p < 0 ∧ -1 ≤ Random.gaussCandidate drand48 p) :=
  ⟨Random.gaussianCalls_le_mean sqrt log drand48 fuel hsqrt hdraw args Random.GaussState.init s rs
      hstd (le_refl (0 : D)) h,
   fun p => ⟨by unfold Random.gaussCandidate; linarith [(hdraw p).2],
     by unfold Random.gaussCandidate; linarith [(hdraw p).1]⟩⟩

/-- Witness of C17 over the real numbers: with every draw equal to `3/4`, a run of
the three calls `nextGaussian(0, 1)`, `nextGaussian(5, 2)`, `nextGaussian(0, 1)`
returns, and each value is at most the mean of its call. -/
theorem Random.nextGaussian_le_mean_witness :
    ∃ rs s, Random.gaussianCalls Real.sqrt Real.log (fun _ => (3 / 4 : ℝ)) 1
        [(0, 1), (5, 2), (0, 1)] Random.GaussState.init = some (rs, s) ∧
      List.Forall₂ (fun v a => v ≤ a.1) rs [((0 : ℝ), (1 : ℝ)), (5, 2), (0, 1)] := by
  obtain ⟨rs, s, h, _, _⟩ := Random.gaussianCalls_flag Real.sqrt Real.log (fun _ => (3 / 4 : ℝ)) 1
    (fun p => ⟨0, by norm_num, by norm_num [Random.gaussRadius, Random.gaussCandidate]⟩)
    [(0, 1), (5, 2), (0, 1)] Random.GaussState.init (Or.inl rfl)
  exact ⟨rs, s, h, (Random.nextGaussian_le_mean ℝ Real.sqrt Real.log (fun _ => (3 / 4 : ℝ)) 1
    Real.sqrt_nonneg (fun _ => by norm_num) [(0, 1), (5, 2), (0, 1)]
    (fun a ha => by
      simp only [List.mem_cons, List.mem_singleton, List.not_mem_nil, or_false] at ha
      rcases ha with rfl | rfl | rfl <;> norm_num) rs s h).1⟩

/-- C20: whenever one of the two rejection loops exits, the transform after it is
well defined.  The `r` handed over by the loop of `nextNormalGaussian` satisfies
`0 < r < 1`, the one of `nextGaussian` satisfies `0 < r <= 1`; in both `r != 0`
and `log(r) <= 0`, so the argument `-2 * log(r) / r` of `sqrt` is non-negative:
positive in `nextNormalGaussian`, and in `nextGaussian` zero exactly when
`r == 1`, where both deviates `x * d` and `y * d` are `0`.  Over the real
numbers, with the real `sqrt` and `log`. -/
theorem Random.polar_transform_defined :
    (∀ (M : ℕ) (rand : ℕ → ℕ) (fuel calls : ℕ) (v1 r : ℝ) (c : ℕ),
      Random.nextNormalGaussianLoop M rand fuel calls = some (v1, r, c) →
      (0 < r ∧ r < 1) ∧ r ≠ 0 ∧ Real.log r ≤ 0 ∧ 0 < -2 * Real.log r / r) ∧
    (∀ (drand48 : ℕ → ℝ) (fuel calls : ℕ) (x y r : ℝ) (c : ℕ),
      Random.nextGaussianLoop drand48 fuel calls = some (x, y, r, c) →
      (0 < r ∧ r ≤ 1) ∧ r ≠ 0 ∧ Real.log r ≤ 0 ∧ 0 ≤ -2 * Real.log r / r ∧
      (-2 * Real.log r / r = 0 ↔ r = 1) ∧
      (r = 1 → x * Real.sqrt (-2 * Real.log r / r) = 0 ∧
        y * Real.sqrt (-2 * Real.log r / r) = 0)) := by
  constructor
  · intro M rand fuel calls v1 r c h
    obtain ⟨p, _, _, hr, _⟩ := Random.nextNormalGaussianLoop_exit M rand fuel calls v1 r c h
    have hlog := Real.log_neg hr.1 hr.2
    exact ⟨hr, hr.1.ne', hlog.le, div_pos (by linarith) hr.1⟩
  · intro drand48 fuel calls x y r c h
    obtain ⟨p, _, _, _, hr, _⟩ := Random.nextGaussianLoop_exit drand48 fuel calls x y r c h
    have hlog := Real.log_nonpos hr.1.le hr.2
    refine ⟨hr, hr.1.ne', hlog, Random.sqrt_arg_nonneg r hr.1 hr.2, ⟨fun h0 => ?_, fun h1 => ?_⟩,
      fun h1 => ?_⟩
    · by_contra hne
      have hlt : r < 1 := lt_of_le_of_ne hr.2 hne
      have hneg := Real.log_neg hr.1 hlt
      have hpos : 0 < -2 * Real.log r / r := div_pos (by linarith) hr.1
      linarith
    · rw [h1]
      simp
    · rw [h1]
      simp

/-- Witness of C20: with the draws `2/5`, `1/5` the loop of `nextGaussian` exits on
the first pair with `r == 1`, and on the sample run the loop of
`nextNormalGaussian` exits with an `r` for which `-2 * log(r) / r` is positive. -/
theorem Random.polar_transform_defined_witness :
    (∃ v1 r c, Random.nextNormalGaussianLoop 32767 Random.sampleRand 2 0 = some (v1, r, c) ∧
      (0 : ℝ) < -2 * Real.log r / r) ∧
    (∃ x y r c, Random.nextGaussianLoop (fun i => if i = 0 then (2 / 5 : ℝ) else 1 / 5) 1 0
        = some (x, y, r, c) ∧ r = 1 ∧ x * Real.sqrt (-2 * Real.log r / r) = 0) := by
  have hN := Random.nextNormalGaussianLoop_accept (D := ℝ) 32767 Random.sampleRand 1 2 0
    (by norm_num)
    (by
      intro j hj
      obtain rfl : j = 0 := by omega
      norm_num [Random.radius, Random.candidate, Random.randomDouble, Random.sampleRand])
    (by norm_num [Random.radius, Random.candidate, Random.randomDouble, Random.sampleRand])
  have hG : Random.nextGaussianLoop (fun i => if i = 0 then (2 / 5 : ℝ) else 1 / 5) 1 0
      = some (-3 / 5, -4 / 5, 1, 2) := by
    norm_num [Random.nextGaussianLoop]
  exact ⟨⟨_, _, _, hN, (Random.polar_transform_defined.1 32767 Random.sampleRand 2 0 _ _ _ hN).2.2.2⟩,
    ⟨_, _, _, _, hG, rfl, ((Random.polar_transform_defined.2 _ 1 0 _ _ _ _ hG).2.2.2.2.2 rfl).1⟩⟩

/-! ## Clamping and membership -/

theorem Fp.le_of_ord_eq_left {a a' b : Fp} (h : a.ord = a'.ord) (hab : a ≤ b) : a' ≤ b := by
  obtain ⟨x, y, hx, hy, hxy⟩ := (Fp.le_iff _ _).1 hab
  exact (Fp.le_iff _ _).2 ⟨x, y, h ▸ hx, hy, hxy⟩

theorem Fp.le_of_ord_eq_right {a b b' : Fp} (h : b.ord = b'.ord) (hab : a ≤ b) : a ≤ b' := by
  obtain ⟨x, y, hx, hy, hxy⟩ := (Fp.le_iff _ _).1 hab
  exact (Fp.le_iff _ _).2 ⟨x, y, hx, h ▸ hy, hxy⟩

theorem Fp.ord_eq_of_eqb {a b : Fp} (h : Fp.eqb a b = true) : a.ord = b.ord := by
  obtain ⟨x, hx, hy⟩ := (Fp.eqb_iff _ _).1 h
  rw [hx, hy]

theorem Fp.eqb_of_le_of_not_lt {a b : Fp} (hab : a ≤ b) (hn : ¬ a < b) :
    Fp.eqb a b = true ∧ Fp.eqb b a = true := by
  obtain ⟨x, y, hx, hy, hxy⟩ := (Fp.le_iff _ _).1 hab
  have hyx : y ≤ x := not_lt.1 fun hlt => hn ((Fp.lt_iff _ _).2 ⟨x, y, hx, hy, hlt⟩)
  have hxy' : x = y := le_antisymm hxy hyx
  subst hxy'
  exact ⟨(Fp.eqb_iff _ _).2 ⟨x, hx, hy⟩, (Fp.eqb_iff _ _).2 ⟨x, hy, hx⟩⟩

theorem Fp.eqb_trans {a b c : Fp} (hab : Fp.eqb a b = true) (hbc : Fp.eqb b c = true) :
    Fp.eqb a c = true := by
  obtain ⟨x, hx, hy⟩ := (Fp.eqb_iff _ _).1 hab
  obtain ⟨y, hy', hz⟩ := (Fp.eqb_iff _ _).1 hbc
  rw [hy] at hy'
  cases hy'
  exact (Fp.eqb_iff _ _).2 ⟨x, hx, hz⟩

theorem Range.in_iff {T : Type} [LE T] [DecidableRel ((· ≤ ·) : T → T → Prop)] (r : Range T)
    (x : T) : r.in_ x = true ↔ r.minv ≤ x ∧ x ≤ r.maxv := by
  simp [Range.in_]

theorem Range.bound_fp_eqb_of_in (r : Range Fp) (x : Fp) (h1 : r.minv ≤ x) (h2 : x ≤ r.maxv) :
    Fp.eqb (r.bound x) x = true := by
  have hxx : Fp.eqb x x = true := by
    obtain ⟨_, y, _, hy, _⟩ := (Fp.le_iff _ _).1 h1
    exact (Fp.eqb_iff _ _).2 ⟨y, hy, hy⟩
  unfold Range.bound stdMax stdMin
  split_ifs with ha hb hc
  · exact hxx
  · exact (Fp.eqb_of_le_of_not_lt h1 hb).1
  · exact (Fp.eqb_of_le_of_not_lt h2 ha).2
  · have hmx : Fp.eqb r.maxv x = true := (Fp.eqb_of_le_of_not_lt h2 ha).2
    have hle : r.minv ≤ r.maxv := Fp.le_of_ord_eq_right (Fp.ord_eq_of_eqb hmx).symm h1
    exact Fp.eqb_trans (Fp.eqb_of_le_of_not_lt hle hc).1 hmx

/-- C18: on a range with `minv <= maxv`, `bound(x) == x` if and only if `in(x)` is
true; consequently `bound(bound(x)) == bound(x)` and `in(bound(x))` is true.  It
holds at every linearly ordered `T` and at the floating-point values, where `==`
is the IEEE equality. -/
theorem Range.bound_fixed_iff_in :
    (∀ (T : Type) [LinearOrder T] (r : Range T) (x : T), r.minv ≤ r.maxv →
      (r.bound x = x ↔ r.in_ x = true) ∧ r.bound (r.bound x) = r.bound x ∧
      r.in_ (r.bound x) = true) ∧
    (∀ (r : Range Fp) (x : Fp), r.minv ≤ r.maxv →
      (Fp.eqb (r.bound x) x = true ↔ r.in_ x = true) ∧
      Fp.eqb (r.bound (r.bound x)) (r.bound x) = true ∧
      r.in_ (r.bound x) = true) := by
  constructor
  · intro T _ r x h
    have hmem := Range.bound_mem_linear r x h
    have hfix : ∀ y, r.minv ≤ y → y ≤ r.maxv → r.bound y = y := fun y h1 h2 => by
      unfold Range.bound
      rw [stdMax_eq_max, stdMin_eq_min, min_eq_right h2, max_eq_right h1]
    refine ⟨⟨fun hb => ?_, fun hin => ?_⟩, hfix _ hmem.1 hmem.2, (Range.in_iff r _).2 hmem⟩
    · rw [← hb]
      exact (Range.in_iff r _).2 hmem
    · obtain ⟨h1, h2⟩ := (Range.in_iff r x).1 hin
      exact hfix x h1 h2
  · intro r x h
    have hmem := Range.bound_mem_fp r x h
    refine ⟨⟨fun hb => ?_, fun hin => ?_⟩, Range.bound_fp_eqb_of_in r _ hmem.1 hmem.2,
      (Range.in_iff r _).2 hmem⟩
    · have ho := Fp.ord_eq_of_eqb hb
      exact (Range.in_iff r x).2 ⟨Fp.le_of_ord_eq_right ho hmem.1, Fp.le_of_ord_eq_left ho hmem.2⟩
    · obtain ⟨h1, h2⟩ := (Range.in_iff r x).1 hin
      exact Range.bound_fp_eqb_of_in r x h1 h2

/-- Witness of C18: on the integer range `[0, 10]`, `bound(15)` is a fixed point of
`bound` and a member; on the floating-point range `[0.0, 1.0]` the member `-0.0`
is clamped to a value equal to it. -/
theorem Range.bound_fixed_iff_in_witness :
    (Range.bound ⟨0, 10⟩ (Range.bound ⟨0, 10⟩ (15 : Int)) = Range.bound ⟨0, 10⟩ (15 : Int) ∧
      Range.in_ ⟨0, 10⟩ (Range.bound ⟨0, 10⟩ (15 : Int)) = true) ∧
    (Fp.eqb (Range.bound ⟨Fp.fin 0, Fp.fin 1⟩ Fp.negZero) Fp.negZero = true ↔
      Range.in_ ⟨Fp.fin 0, Fp.fin 1⟩ Fp.negZero = true) :=
  ⟨(Range.bound_fixed_iff_in.1 Int ⟨0, 10⟩ 15 (by decide)).2,
   (Range.bound_fixed_iff_in.2 ⟨Fp.fin 0, Fp.fin 1⟩ Fp.negZero (by decide)).1⟩

/-! ## Properties of the rounding -/

theorem roundHalfEven_intCast (n : ℤ) : roundHalfEven (n : ℚ) = n := by
  unfold roundHalfEven
  rw [Int.floor_intCast, sub_self, if_pos (by norm_num)]

theorem roundHalfEven_eq (q : ℚ) (n : ℤ) (h1 : (n : ℚ) - 1 / 2 < q) (h2 : q < (n : ℚ) + 1 / 2) :
    roundHalfEven q = n := by
  unfold roundHalfEven
  by_cases hq : (n : ℚ) ≤ q
  · have hf : Int.floor q = n := Int.floor_eq_iff.2 ⟨hq, by linarith⟩
    rw [hf, if_pos (by linarith)]
  · have hq' : q < n := not_le.1 hq
    have hf : Int.floor q = n - 1 := Int.floor_eq_iff.2 ⟨by push_cast; linarith, by push_cast; linarith⟩
    rw [hf, if_neg (by push_cast; linarith), if_pos (by push_cast; linarith)]
    ring

theorem roundHalfEven_nonneg (q : ℚ) (h : 0 ≤ q) : 0 ≤ roundHalfEven q := by
  have hf : 0 ≤ Int.floor q := Int.floor_nonneg.2 h
  unfold roundHalfEven
  split_ifs <;> omega

theorem abs_sub_roundHalfEven_le (q : ℚ) : |q - (roundHalfEven q : ℚ)| ≤ 1 / 2 := by
  have h1 := Int.floor_le q
  have h2 := Int.lt_floor_add_one q
  unfold roundHalfEven
  rw [abs_le]
  split_ifs with a b c
  · constructor <;> linarith
  · push_cast
    constructor <;> linarith
  · constructor <;> linarith
  · push_cast
    constructor <;> linarith

theorem log_two_eq (q : ℚ) (e : ℤ) (h0 : 0 < q) (h1 : (2 : ℚ) ^ e ≤ q) (h2 : q < (2 : ℚ) ^ (e + 1)) :
    Int.log 2 q = e := by
  have ha : e ≤ Int.log 2 q :=
    (Int.zpow_le_iff_le_log (by norm_num : 1 < 2) h0).1 (by exact_mod_cast h1)
  have hb : Int.log 2 q < e + 1 :=
    (Int.lt_zpow_iff_log_lt (by norm_num : 1 < 2) h0).1 (by exact_mod_cast h2)
  omega

theorem roundFloat_zero (p : ℕ) : roundFloat p 0 = 0 := by
  unfold roundFloat
  rw [if_pos rfl]

theorem roundHalfEven_half (f : ℤ) :
    roundHalfEven ((f : ℚ) + 1 / 2) = if f % 2 = 0 then f else f + 1 := by
  have hf : Int.floor ((f : ℚ) + 1 / 2) = f :=
    Int.floor_eq_iff.2 ⟨by linarith, by linarith⟩
  unfold roundHalfEven
  rw [hf, if_neg (by norm_num), if_neg (by norm_num)]

theorem roundHalfEven_neg (q : ℚ) : roundHalfEven (-q) = -roundHalfEven q := by
  have h1 := Int.floor_le q
  have h2 := Int.lt_floor_add_one q
  rcases lt_trichotomy (q - (Int.floor q : ℚ)) (1 / 2) with h | h | h
  · have hn : roundHalfEven q = Int.floor q := by
      unfold roundHalfEven
      rw [if_pos h]
    rw [hn]
    exact roundHalfEven_eq _ _ (by push_cast; linarith) (by push_cast; linarith)
  · have hq : q = (Int.floor q : ℚ) + 1 / 2 := by linarith
    have hq' : -q = ((-Int.floor q - 1 : ℤ) : ℚ) + 1 / 2 := by
      push_cast
      linarith
    generalize Int.floor q = f at hq hq'
    rw [hq', roundHalfEven_half, hq, roundHalfEven_half]
    split_ifs <;> omega
  · have hn : roundHalfEven q = Int.floor q + 1 := by
      unfold roundHalfEven
      rw [if_neg (by linarith), if_pos h]
    rw [hn]
    exact roundHalfEven_eq _ _ (by push_cast; linarith) (by push_cast; linarith)

theorem roundHalfEven_mono {a b : ℚ} (h : a ≤ b) : roundHalfEven a ≤ roundHalfEven b := by
  by_contra hlt
  have hlt' : roundHalfEven b + 1 ≤ roundHalfEven a := by omega
  have hc : ((roundHalfEven b : ℤ) : ℚ) + 1 ≤ (roundHalfEven a : ℚ) := by exact_mod_cast hlt'
  have ha := abs_le.1 (abs_sub_roundHalfEven_le a)
  have hb := abs_le.1 (abs_sub_roundHalfEven_le b)
  have hab : a = b := by linarith [ha.1, ha.2, hb.1, hb.2]
  rw [hab] at hlt
  exact hlt (le_refl _)

theorem roundFloat_neg (p : ℕ) (q : ℚ) : roundFloat p (-q) = -roundFloat p q := by
  unfold roundFloat
  by_cases h : q = 0
  · rw [if_pos h, if_pos (by rw [h, neg_zero]), neg_zero]
  · rw [if_neg h, if_neg (neg_ne_zero.2 h), abs_neg, neg_div, roundHalfEven_neg]
    push_cast
    ring

/-- Evaluation of `roundFloat` at a positive `q` that is not half-way between two
neighbours: `e` is the binary exponent of `q` and `n` the nearest multiple. -/
theorem roundFloat_eq (p : ℕ) (q : ℚ) (e n : ℤ) (h0 : 0 < q) (h1 : (2 : ℚ) ^ e ≤ q)
    (h2 : q < (2 : ℚ) ^ (e + 1))
    (h3 : (n : ℚ) - 1 / 2 < q / (2 : ℚ) ^ (e - ((p : ℤ) - 1)))
    (h4 : q / (2 : ℚ) ^ (e - ((p : ℤ) - 1)) < (n : ℚ) + 1 / 2) :
    roundFloat p q = (n : ℚ) * (2 : ℚ) ^ (e - ((p : ℤ) - 1)) := by
  unfold roundFloat
  rw [if_neg h0.ne', abs_of_pos h0, log_two_eq q e h0 h1 h2, roundHalfEven_eq _ n h3 h4]

theorem roundFloat_dyadic_pos (p : ℕ) (m : ℕ) (k : ℤ) (hm0 : 0 < m) (hm : m < 2 ^ p) :
    roundFloat p ((m : ℚ) * (2 : ℚ) ^ k) = (m : ℚ) * (2 : ℚ) ^ k := by
  have h2k : (0 : ℚ) < (2 : ℚ) ^ k := zpow_pos (by norm_num) k
  have hq : (0 : ℚ) < (m : ℚ) * (2 : ℚ) ^ k := mul_pos (by exact_mod_cast hm0) h2k
  have hlt : (m : ℚ) * (2 : ℚ) ^ k < (2 : ℚ) ^ ((p : ℤ) + k) := by
    rw [zpow_add₀ (by norm_num : (2 : ℚ) ≠ 0)]
    have : (m : ℚ) < (2 : ℚ) ^ (p : ℤ) := by
      rw [zpow_natCast]
      exact_mod_cast hm
    exact mul_lt_mul_of_pos_right this h2k
  have hlog : Int.log 2 ((m : ℚ) * (2 : ℚ) ^ k) < (p : ℤ) + k :=
    (Int.lt_zpow_iff_log_lt (by norm_num : 1 < 2) hq).1 (by exact_mod_cast hlt)
  unfold roundFloat
  rw [if_neg hq.ne', abs_of_pos hq]
  generalize Int.log 2 ((m : ℚ) * (2 : ℚ) ^ k) = e at hlog
  obtain ⟨j, hj⟩ : ∃ j : ℕ, (j : ℤ) = k - (e - ((p : ℤ) - 1)) :=
    ⟨(k - (e - ((p : ℤ) - 1))).toNat, Int.toNat_of_nonneg (by omega)⟩
  have hk : k = (e - ((p : ℤ) - 1)) + (j : ℤ) := by omega
  have hdiv : (m : ℚ) * (2 : ℚ) ^ k / (2 : ℚ) ^ (e - ((p : ℤ) - 1)) = ((m * 2 ^ j : ℤ) : ℚ) := by
    rw [hk, zpow_add₀ (by norm_num : (2 : ℚ) ≠ 0), zpow_natCast]
    have hne : (2 : ℚ) ^ (e - ((p : ℤ) - 1)) ≠ 0 := (zpow_pos (by norm_num) _).ne'
    field_simp
    ring
  rw [hdiv, roundHalfEven_intCast]
  rw [hk, zpow_add₀ (by norm_num : (2 : ℚ) ≠ 0), zpow_natCast]
  push_cast
  ring

theorem roundFloat_dyadic (p : ℕ) (m k : ℤ) (hm : |m| < 2 ^ p) :
    roundFloat p ((m : ℚ) * (2 : ℚ) ^ k) = (m : ℚ) * (2 : ℚ) ^ k := by
  rcases lt_trichotomy m 0 with h | h | h
  · obtain ⟨a, ha⟩ : ∃ a : ℕ, (a : ℤ) = -m := ⟨(-m).toNat, Int.toNat_of_nonneg (by omega)⟩
    have hm' : m = -(a : ℤ) := by omega
    have ha0 : 0 < a := by omega
    have hap : a < 2 ^ p := by
      have : |m| = (a : ℤ) := by rw [abs_of_neg h]; omega
      rw [this] at hm
      exact_mod_cast hm
    have := roundFloat_dyadic_pos p a k ha0 hap
    rw [hm']
    push_cast
    rw [neg_mul, roundFloat_neg, this]
  · rw [h]
    simp [roundFloat_zero]
  · obtain ⟨a, ha⟩ : ∃ a : ℕ, (a : ℤ) = m := ⟨m.toNat, Int.toNat_of_nonneg h.le⟩
    have ha0 : 0 < a := by omega
    have hap : a < 2 ^ p := by
      have : |m| = (a : ℤ) := by rw [abs_of_pos h]; omega
      rw [this] at hm
      exact_mod_cast hm
    have := roundFloat_dyadic_pos p a k ha0 hap
    rw [← ha]
    exact_mod_cast this

theorem roundFloat_nonneg (p : ℕ) (q : ℚ) (h : 0 ≤ q) : 0 ≤ roundFloat p q := by
  unfold roundFloat
  split_ifs with h0
  · exact le_refl 0
  · have hu : (0 : ℚ) < (2 : ℚ) ^ (Int.log 2 |q| - ((p : ℤ) - 1)) := zpow_pos (by norm_num) _
    have := roundHalfEven_nonneg _ (div_nonneg h hu.le)
    exact mul_nonneg (by exact_mod_cast this) hu.le

theorem roundFloat_bounds (p : ℕ) (hp : 1 ≤ p) (q : ℚ) (h0 : 0 < q) :
    (2 : ℚ) ^ Int.log 2 q ≤ roundFloat p q ∧ roundFloat p q ≤ (2 : ℚ) ^ (Int.log 2 q + 1) := by
  have hlo : ((2 : ℕ) : ℚ) ^ Int.log 2 q ≤ q := Int.zpow_log_le_self (by norm_num) h0
  have hhi : q < ((2 : ℕ) : ℚ) ^ (Int.log 2 q + 1) := Int.lt_zpow_succ_log_self (by norm_num) q
  push_cast at hlo hhi
  unfold roundFloat
  rw [if_neg h0.ne', abs_of_pos h0]
  generalize Int.log 2 q = e at hlo hhi
  have hu : (0 : ℚ) < (2 : ℚ) ^ (e - ((p : ℤ) - 1)) := zpow_pos (by norm_num) _
  obtain ⟨j, hj⟩ : ∃ j : ℕ, (j : ℤ) = (p : ℤ) - 1 := ⟨p - 1, by omega⟩
  have he : (2 : ℚ) ^ e = (2 : ℚ) ^ j * (2 : ℚ) ^ (e - ((p : ℤ) - 1)) := by
    rw [← zpow_natCast, ← zpow_add₀ (by norm_num : (2 : ℚ) ≠ 0)]
    congr 1
    omega
  have he1 : (2 : ℚ) ^ (e + 1) = (2 : ℚ) ^ (j + 1) * (2 : ℚ) ^ (e - ((p : ℤ) - 1)) := by
    rw [← zpow_natCast, ← zpow_add₀ (by norm_num : (2 : ℚ) ≠ 0)]
    congr 1
    push_cast
    omega
  have h1 : (((2 : ℤ) ^ j : ℤ) : ℚ) ≤ q / (2 : ℚ) ^ (e - ((p : ℤ) - 1)) := by
    rw [le_div_iff₀ hu]
    push_cast
    rw [← he]
    exact hlo
  have h2 : q / (2 : ℚ) ^ (e - ((p : ℤ) - 1)) ≤ (((2 : ℤ) ^ (j + 1) : ℤ) : ℚ) := by
    rw [div_le_iff₀ hu]
    push_cast
    rw [← he1]
    exact hhi.le
  have r1 := roundHalfEven_mono h1
  have r2 := roundHalfEven_mono h2
  rw [roundHalfEven_intCast] at r1 r2
  have r1' : ((2 : ℚ) ^ j) ≤ (roundHalfEven (q / (2 : ℚ) ^ (e - ((p : ℤ) - 1))) : ℚ) := by
    exact_mod_cast r1
  have r2' : (roundHalfEven (q / (2 : ℚ) ^ (e - ((p : ℤ) - 1))) : ℚ) ≤ (2 : ℚ) ^ (j + 1) := by
    exact_mod_cast r2
  rw [he, he1]
  exact ⟨mul_le_mul_of_nonneg_right r1' hu.le, mul_le_mul_of_nonneg_right r2' hu.le⟩

theorem roundFloat_pos (p : ℕ) (hp : 1 ≤ p) (q : ℚ) (h0 : 0 < q) : 0 < roundFloat p q :=
  lt_of_lt_of_le (zpow_pos (by norm_num) _) (roundFloat_bounds p hp q h0).1

theorem roundFloat_neg_of_neg (p : ℕ) (hp : 1 ≤ p) (q : ℚ) (h0 : q < 0) : roundFloat p q < 0 := by
  have h := roundFloat_pos p hp (-q) (by linarith)
  rw [roundFloat_neg] at h
  linarith

theorem roundFloat_idem (p : ℕ) (hp : 1 ≤ p) (q : ℚ) :
    roundFloat p (roundFloat p q) = roundFloat p q := by
  have key : ∀ a : ℚ, 0 < a → roundFloat p (roundFloat p a) = roundFloat p a := by
    intro a h0
    have hlo : ((2 : ℕ) : ℚ) ^ Int.log 2 a ≤ a := Int.zpow_log_le_self (by norm_num) h0
    have hhi : a < ((2 : ℕ) : ℚ) ^ (Int.log 2 a + 1) := Int.lt_zpow_succ_log_self (by norm_num) a
    push_cast at hlo hhi
    have hb := roundFloat_bounds p hp a h0
    have hdef : roundFloat p a = (roundHalfEven (a / (2 : ℚ) ^ (Int.log 2 a - ((p : ℤ) - 1))) : ℚ)
        * (2 : ℚ) ^ (Int.log 2 a - ((p : ℤ) - 1)) := by
      unfold roundFloat
      rw [if_neg h0.ne', abs_of_pos h0]
    generalize Int.log 2 a = e at hlo hhi hb hdef
    generalize roundHalfEven (a / (2 : ℚ) ^ (e - ((p : ℤ) - 1))) = N at hdef
    have hu : (0 : ℚ) < (2 : ℚ) ^ (e - ((p : ℤ) - 1)) := zpow_pos (by norm_num) _
    obtain ⟨j, hj⟩ : ∃ j : ℕ, (j : ℤ) = (p : ℤ) - 1 := ⟨p - 1, by omega⟩
    have he1 : (2 : ℚ) ^ (e + 1) = (2 : ℚ) ^ p * (2 : ℚ) ^ (e - ((p : ℤ) - 1)) := by
      rw [← zpow_natCast, ← zpow_add₀ (by norm_num : (2 : ℚ) ≠ 0)]
      congr 1
      omega
    have hN : (N : ℚ) ≤ (2 : ℚ) ^ p := by
      have := hb.2
      rw [hdef, he1] at this
      exact le_of_mul_le_mul_right this hu
    have hN0 : (0 : ℚ) < (N : ℚ) := by
      have := roundFloat_pos p hp a h0
      rw [hdef] at this
      exact pos_of_mul_pos_left this hu.le
    have hNz : 0 < N := by exact_mod_cast hN0
    have hNle : N ≤ 2 ^ p := by exact_mod_cast hN
    rw [hdef]
    rcases hNle.lt_or_eq with hlt | heq
    · exact roundFloat_dyadic p N _ (by rw [abs_of_pos hNz]; exact hlt)
    · have hval : (N : ℚ) * (2 : ℚ) ^ (e - ((p : ℤ) - 1))
          = (((2 : ℤ) ^ j : ℤ) : ℚ) * (2 : ℚ) ^ (e - ((p : ℤ) - 1) + 1) := by
        rw [heq, zpow_add₀ (by norm_num : (2 : ℚ) ≠ 0)]
        have hpj : p = j + 1 := by omega
        rw [hpj]
        push_cast
        ring
      rw [hval]
      refine roundFloat_dyadic p _ _ ?_
      rw [abs_of_pos (by positivity)]
      exact pow_lt_pow_right₀ (by norm_num) (by omega)
  rcases lt_trichotomy q 0 with h | h | h
  · have := key (-q) (by linarith)
    rw [roundFloat_neg, roundFloat_neg] at this
    linarith
  · rw [h, roundFloat_zero, roundFloat_zero]
  · exact key q h

theorem roundFloat_eq_self (p : ℕ) (q : ℚ) (m k : ℤ) (h : q = (m : ℚ) * (2 : ℚ) ^ k)
    (hm : |m| < 2 ^ p) : roundFloat p q = q := by
  rw [h]
  exact roundFloat_dyadic p m k hm

theorem roundFloat_eq_val (p : ℕ) (q v : ℚ) (e n : ℤ) (h0 : 0 < q) (h1 : (2 : ℚ) ^ e ≤ q)
    (h2 : q < (2 : ℚ) ^ (e + 1))
    (h3 : (n : ℚ) - 1 / 2 < q / (2 : ℚ) ^ (e - ((p : ℤ) - 1)))
    (h4 : q / (2 : ℚ) ^ (e - ((p : ℤ) - 1)) < (n : ℚ) + 1 / 2)
    (hv : v = (n : ℚ) * (2 : ℚ) ^ (e - ((p : ℤ) - 1))) : roundFloat p q = v := by
  rw [hv]
  exact roundFloat_eq p q e n h0 h1 h2 h3 h4

theorem wrapInt_of_mem (n : Int) (h1 : -2 ^ 31 ≤ n) (h2 : n ≤ 2 ^ 31 - 1) : wrapInt n = n := by
  unfold wrapInt
  omega

theorem CInt.length_val (r : Range CInt) (h1 : -2 ^ 31 ≤ r.maxv.val - r.minv.val)
    (h2 : r.maxv.val - r.minv.val ≤ 2 ^ 31 - 1) :
    r.length.val = r.maxv.val - r.minv.val := by
  show wrapInt (r.maxv.val - r.minv.val) = _
  exact wrapInt_of_mem _ h1 h2

theorem Range.length_unsigned_wrap (r : Range (Fin (2 ^ 32))) (h : r.maxv < r.minv) :
    ((r.length : Fin (2 ^ 32)) : ℕ) = (r.maxv : ℕ) + 2 ^ 32 - (r.minv : ℕ) := by
  show ((r.maxv - r.minv : Fin (2 ^ 32)) : ℕ) = _
  have h' : (r.maxv : ℕ) < (r.minv : ℕ) := h
  have hb := r.minv.isLt
  rw [Fin.sub_def]
  show ((2 ^ 32 - (r.minv : ℕ)) + (r.maxv : ℕ)) % 2 ^ 32 = _
  rw [Nat.mod_eq_of_lt (by omega)]
  omega

/-- Counterexample to C19: the `unsigned int` range with `minv = 5` and `maxv = 2`
has `length() == 4294967293`, which is not negative. -/
theorem Range.inverted_length_unsigned :
    (⟨5, 2⟩ : Range (Fin (2 ^ 32))).maxv < (⟨5, 2⟩ : Range (Fin (2 ^ 32))).minv ∧
    (((Range.length (⟨5, 2⟩ : Range (Fin (2 ^ 32))) : Fin (2 ^ 32)) : ℕ) : ℤ) = 4294967293 ∧
    ¬ ((((Range.length (⟨5, 2⟩ : Range (Fin (2 ^ 32))) : Fin (2 ^ 32)) : ℕ) : ℤ) < 0) := by
  have h : ((Range.length (⟨5, 2⟩ : Range (Fin (2 ^ 32))) : Fin (2 ^ 32)) : ℕ) = 4294967293 := by
    rw [Range.length_unsigned_wrap ⟨5, 2⟩ (by decide)]
    rfl
  refine ⟨by decide, ?_, ?_⟩
  · rw [h]
    norm_num
  · rw [h]
    norm_num

/-- C19, amended.  On a range with `maxv < minv`, `bound(x)` is `minv` for every
`x` and `in(x)` is false for every `x`, at every linearly ordered `T` and at the
floating-point values (NaN included); the operations are total, so none fails.
`length()` is `maxv - minv` computed in `T`: for `T = int` it is the negative
number `maxv - minv` when that subtraction does not overflow; for
`T = unsigned int` it is the positive number `maxv + 2^32 - minv`; for a
floating-point `T` over finite bounds it is the rounded difference, which is
negative (the difference of two floating-point numbers never rounds to zero). -/
theorem Range.inverted_range :
    (∀ (T : Type) [LinearOrder T] (r : Range T) (x : T), r.maxv < r.minv →
      r.bound x = r.minv ∧ r.in_ x = false) ∧
    (∀ (r : Range Fp) (x : Fp), r.maxv < r.minv →
      r.bound x = r.minv ∧ r.in_ x = false) ∧
    (∀ (r : Range CInt), r.maxv.val < r.minv.val → -2 ^ 31 ≤ r.maxv.val - r.minv.val →
      r.length.val = r.maxv.val - r.minv.val ∧ r.length.val < 0) ∧
    (∀ (r : Range (Fin (2 ^ 32))), r.maxv < r.minv →
      ((r.length : Fin (2 ^ 32)) : ℕ) = (r.maxv : ℕ) + 2 ^ 32 - (r.minv : ℕ) ∧
      0 < ((r.length : Fin (2 ^ 32)) : ℕ)) ∧
    (∀ (D : Type) [LinearOrderedField D] (rnd : D → D) (r : Range (Flt D rnd)),
      (∀ x : D, x < 0 → rnd x < 0) → r.maxv.val < r.minv.val →
      r.length.val = rnd (r.maxv.val - r.minv.val) ∧ r.length.val < 0) := by
  refine ⟨fun T _ r x h => ⟨?_, ?_⟩, fun r x h => ⟨?_, ?_⟩, fun r h hlo => ?_,
    fun r h => ?_, fun D _ rnd r hrnd h => ⟨rfl, hrnd _ (sub_neg.2 h)⟩⟩
  · unfold Range.bound
    rw [stdMax_eq_max, stdMin_eq_min]
    exact max_eq_left ((min_le_left _ _).trans h.le)
  · rw [Bool.eq_false_iff]
    intro hin
    obtain ⟨h1, h2⟩ := (Range.in_iff r x).1 hin
    exact absurd (h1.trans h2) (not_le.2 h)
  · obtain ⟨b, a, hb, ha, hba⟩ := (Fp.lt_iff _ _).1 h
    unfold Range.bound stdMax stdMin
    split_ifs with h1 h2 h3
    · obtain ⟨c, b', hc, hb', hcb⟩ := (Fp.lt_iff _ _).1 h1
      obtain ⟨a', c', ha', hc', hac⟩ := (Fp.lt_iff _ _).1 h2
      rw [hb] at hb'
      rw [ha] at ha'
      rw [hc] at hc'
      cases hb'
      cases ha'
      cases hc'
      exact absurd (hac.trans hcb) (lt_asymm hba)
    · rfl
    · exact absurd h (Fp.not_lt_of_lt h3)
    · rfl
  · rw [Bool.eq_false_iff]
    intro hin
    obtain ⟨h1, h2⟩ := (Range.in_iff r x).1 hin
    obtain ⟨a, c, ha, hc, hac⟩ := (Fp.le_iff _ _).1 h1
    obtain ⟨c', b, hc', hb, hcb⟩ := (Fp.le_iff _ _).1 h2
    obtain ⟨b', a', hb', ha', hba⟩ := (Fp.lt_iff _ _).1 h
    rw [hc] at hc'
    rw [ha] at ha'
    rw [hb] at hb'
    cases hc'
    cases ha'
    cases hb'
    exact absurd (hac.trans hcb) (not_le.2 hba)
  · have hl := CInt.length_val r hlo (by omega)
    exact ⟨hl, by omega⟩
  · have hl := Range.length_unsigned_wrap r h
    have h' : (r.maxv : ℕ) < (r.minv : ℕ) := h
    have hb := r.minv.isLt
    exact ⟨hl, by omega⟩

/-- Witness of C19 as amended: the inverted `unsigned int` range with `minv = 5`
and `maxv = 2` sends `3` to `5` and does not contain `3`; the inverted
floating-point range with `minv = 1.0` and `maxv = -1.0` sends NaN to `1.0`; the
inverted `int` range `(5, 2)` has length `-3`; the inverted `double` range
`(1.0, -1.0)` has length `-2.0`. -/
theorem Range.inverted_range_witness :
    (Range.bound ⟨5, 2⟩ (3 : Fin (2 ^ 32)) = 5 ∧ Range.in_ ⟨5, 2⟩ (3 : Fin (2 ^ 32)) = false) ∧
    (Range.bound ⟨Fp.fin 1, Fp.fin (-1)⟩ Fp.nan = Fp.fin 1 ∧
      Range.in_ ⟨Fp.fin 1, Fp.fin (-1)⟩ Fp.nan = false) ∧
    ((Range.length (⟨⟨5⟩, ⟨2⟩⟩ : Range CInt)).val = 2 - 5 ∧
      (Range.length (⟨⟨5⟩, ⟨2⟩⟩ : Range CInt)).val < 0) ∧
    ((Range.length (⟨⟨1⟩, ⟨-1⟩⟩ : Range (Flt ℚ (roundFloat 53)))).val
        = roundFloat 53 (-1 - 1) ∧
      (Range.length (⟨⟨1⟩, ⟨-1⟩⟩ : Range (Flt ℚ (roundFloat 53)))).val < 0) :=
  ⟨Range.inverted_range.1 (Fin (2 ^ 32)) ⟨5, 2⟩ 3 (by decide),
   Range.inverted_range.2.1 ⟨Fp.fin 1, Fp.fin (-1)⟩ Fp.nan (by decide),
   Range.inverted_range.2.2.1 ⟨⟨5⟩, ⟨2⟩⟩ (by decide) (by decide),
   Range.inverted_range.2.2.2.2 ℚ (roundFloat 53) ⟨⟨1⟩, ⟨-1⟩⟩
     (fun x hx => roundFloat_neg_of_neg 53 (by norm_num) x hx) (by norm_num)⟩

/-! ## The library values used in the sample runs -/

/-- The tabulated values of `sqrt` are the nearest `double` (for `sqrt(6.0f)`,
the nearest `float`) to the real square root: the argument lies strictly between
the squares of the two midpoints next to the value. -/
theorem Rounded.sampleSqrt_nearest :
    (Rounded.sampleSqrt (1047673110723311 / 140737488355328) = (6143810043326269 / 2251799813685248) ∧
      ((6143810043326269 / 2251799813685248) - (1 / 4503599627370496) : ℚ) ^ 2 < (1047673110723311 / 140737488355328) ∧
      (1047673110723311 / 140737488355328) < ((6143810043326269 / 2251799813685248) + (1 / 4503599627370496) : ℚ) ^ 2) ∧
    (Rounded.sampleSqrt (4682486076124019 / 140737488355328) = (6494311749153973 / 1125899906842624) ∧
      ((6494311749153973 / 1125899906842624) - (1 / 2251799813685248) : ℚ) ^ 2 < (4682486076124019 / 140737488355328) ∧
      (4682486076124019 / 140737488355328) < ((6494311749153973 / 1125899906842624) + (1 / 2251799813685248) : ℚ) ^ 2) ∧
    (Rounded.sampleSqrt (6243314768165359 / 2251799813685248) = (7498985273150791 / 4503599627370496) ∧
      ((7498985273150791 / 4503599627370496) - (1 / 9007199254740992) : ℚ) ^ 2 < (6243314768165359 / 2251799813685248) ∧
      (6243314768165359 / 2251799813685248) < ((7498985273150791 / 4503599627370496) + (1 / 9007199254740992) : ℚ) ^ 2) ∧
    (Rounded.sampleSqrt (4503599627370497 / 20282409603651670423947251286016) = (1 / 67108864) ∧
      ((1 / 67108864) - (1 / 1208925819614629174706176) : ℚ) ^ 2 < (4503599627370497 / 20282409603651670423947251286016) ∧
      (4503599627370497 / 20282409603651670423947251286016) < ((1 / 67108864) + (1 / 604462909807314587353088) : ℚ) ^ 2) ∧
    (Rounded.sampleSqrtf 6 = (10273905 / 4194304) ∧
      ((10273905 / 4194304) - (1 / 8388608) : ℚ) ^ 2 < 6 ∧ 6 < ((10273905 / 4194304) + (1 / 8388608) : ℚ) ^ 2) := by
  refine ⟨⟨?_, ?_, ?_⟩, ⟨?_, ?_, ?_⟩, ⟨?_, ?_, ?_⟩, ⟨?_, ?_, ?_⟩, ⟨?_, ?_, ?_⟩⟩ <;>
    norm_num [Rounded.sampleSqrt, Rounded.sampleSqrtf]

/-! ## The rejection loop of `nextNormalGaussian`, with rounding -/

theorem Rounded.radius_nonneg_rnd {D : Type} [LinearOrderedField D] (rnd : D → D)
    (hnn : ∀ x : D, 0 ≤ x → 0 ≤ rnd x) (M : ℕ) (rand : ℕ → ℕ) (p : ℕ) :
    0 ≤ Rounded.radius rnd M rand p :=
  hnn _ (add_nonneg (hnn _ (mul_self_nonneg _)) (hnn _ (mul_self_nonneg _)))

theorem Rounded.reject_iff_rnd {D : Type} [LinearOrderedField D] (rnd : D → D)
    (hnn : ∀ x : D, 0 ≤ x → 0 ≤ rnd x) (M : ℕ) (rand : ℕ → ℕ) (p : ℕ) :
    (Rounded.radius rnd M rand p ≥ 1 ∨ Rounded.radius rnd M rand p = 0) ↔
      ¬ (0 < Rounded.radius rnd M rand p ∧ Rounded.radius rnd M rand p < 1) := by
  have h := Rounded.radius_nonneg_rnd rnd hnn M rand p
  constructor
  · rintro (h1 | h1) ⟨h2, h3⟩
    · exact absurd h3 (not_lt.2 h1)
    · exact absurd h1 (ne_of_gt h2)
  · intro hn
    by_cases h1 : Rounded.radius rnd M rand p ≥ 1
    · exact Or.inl h1
    · exact Or.inr (le_antisymm (not_lt.1 fun h2 => hn ⟨h2, not_le.1 h1⟩) h)

theorem Rounded.nextNormalGaussianLoop_step_rnd {D : Type} [LinearOrderedField D] (rnd : D → D)
    (M : ℕ) (rand : ℕ → ℕ) (fuel calls : ℕ) :
    Rounded.nextNormalGaussianLoop rnd M rand (fuel + 1) calls =
      if Rounded.radius rnd M rand calls ≥ 1 ∨ Rounded.radius rnd M rand calls = 0 then
        Rounded.nextNormalGaussianLoop rnd M rand fuel (calls + 2)
      else some (Rounded.candidate rnd M rand calls, Rounded.radius rnd M rand calls,
        calls + 2) :=
  rfl

theorem Rounded.nextNormalGaussianLoop_accept_rnd {D : Type} [LinearOrderedField D] (rnd : D → D)
    (hnn : ∀ x : D, 0 ≤ x → 0 ≤ rnd x) (M : ℕ) (rand : ℕ → ℕ) :
    ∀ (k fuel calls : ℕ), k < fuel →
      (∀ j < k, ¬ (0 < Rounded.radius rnd M rand (calls + 2 * j) ∧
        Rounded.radius rnd M rand (calls + 2 * j) < 1)) →
      (0 < Rounded.radius rnd M rand (calls + 2 * k) ∧
        Rounded.radius rnd M rand (calls + 2 * k) < 1) →
      Rounded.nextNormalGaussianLoop rnd M rand fuel calls =
        some (Rounded.candidate rnd M rand (calls + 2 * k),
          Rounded.radius rnd M rand (calls + 2 * k), calls + 2 * (k + 1)) := by
  intro k
  induction k with
  | zero =>
    intro fuel calls hf _ hacc
    obtain ⟨f, rfl⟩ : ∃ f, fuel = f + 1 := ⟨fuel - 1, by omega⟩
    rw [Rounded.nextNormalGaussianLoop_step_rnd, if_neg]
    · rfl
    · intro h
      exact (Rounded.reject_iff_rnd rnd hnn M rand calls).1 h (by simpa using hacc)
  | succ k ih =>
    intro fuel calls hf hrej hacc
    obtain ⟨f, rfl⟩ : ∃ f, fuel = f + 1 := ⟨fuel - 1, by omega⟩
    have h0 := hrej 0 (Nat.succ_pos k)
    rw [Rounded.nextNormalGaussianLoop_step_rnd,
      if_pos ((Rounded.reject_iff_rnd rnd hnn M rand calls).2 (by simpa using h0))]
    have hidx : ∀ j, calls + 2 + 2 * j = calls + 2 * (j + 1) := fun j => by ring
    have h := ih f (calls + 2) (by omega)
      (fun j hj => by rw [hidx]; exact hrej (j + 1) (by omega))
      (by rw [hidx]; exact hacc)
    rw [h, hidx k, hidx (k + 1)]

theorem Rounded.nextNormalGaussianLoop_none {D : Type} [LinearOrderedField D] (rnd : D → D)
    (hnn : ∀ x : D, 0 ≤ x → 0 ≤ rnd x) (M : ℕ) (rand : ℕ → ℕ) :
    ∀ (fuel calls : ℕ),
      (∀ j < fuel, ¬ (0 < Rounded.radius rnd M rand (calls + 2 * j) ∧
        Rounded.radius rnd M rand (calls + 2 * j) < 1)) →
      Rounded.nextNormalGaussianLoop rnd M rand fuel calls = none := by
  intro fuel
  induction fuel with
  | zero => intro calls _; rfl
  | succ f ih =>
    intro calls hrej
    have h0 := hrej 0 (Nat.succ_pos f)
    rw [Rounded.nextNormalGaussianLoop_step_rnd,
      if_pos ((Rounded.reject_iff_rnd rnd hnn M rand calls).2 (by simpa using h0))]
    refine ih (calls + 2) fun j hj => ?_
    have hidx : calls + 2 + 2 * j = calls + 2 * (j + 1) := by ring
    rw [hidx]
    exact hrej (j + 1) (by omega)

theorem Rounded.nextNormalGaussian_none {D : Type} [LinearOrderedField D]
    (rnd sqrt log : D → D) (hnn : ∀ x : D, 0 ≤ x → 0 ≤ rnd x) (M : ℕ) (rand : ℕ → ℕ)
    (fuel : ℕ)
    (hrej : ∀ j < fuel, ¬ (0 < Rounded.radius rnd M rand (2 * j) ∧
      Rounded.radius rnd M rand (2 * j) < 1)) :
    Rounded.nextNormalGaussian rnd sqrt log M rand fuel 0 = none := by
  unfold Rounded.nextNormalGaussian
  rw [Rounded.nextNormalGaussianLoop_none rnd hnn M rand fuel 0 (by simpa using hrej)]

theorem Rounded.nextNormalGaussian_some {D : Type} [LinearOrderedField D]
    (rnd sqrt log : D → D) (hnn : ∀ x : D, 0 ≤ x → 0 ≤ rnd x) (M : ℕ) (rand : ℕ → ℕ)
    (k fuel : ℕ)
    (hrej : ∀ j < k, ¬ (0 < Rounded.radius rnd M rand (2 * j) ∧
      Rounded.radius rnd M rand (2 * j) < 1))
    (hacc : 0 < Rounded.radius rnd M rand (2 * k) ∧ Rounded.radius rnd M rand (2 * k) < 1)
    (hfuel : k < fuel) :
    Rounded.nextNormalGaussian rnd sqrt log M rand fuel 0 =
      some (rnd (Rounded.candidate rnd M rand (2 * k) *
        sqrt (rnd (rnd (-2 * log (Rounded.radius rnd M rand (2 * k)))
          / Rounded.radius rnd M rand (2 * k)))), 2 * (k + 1)) := by
  have h := Rounded.nextNormalGaussianLoop_accept_rnd rnd hnn M rand k fuel 0 hfuel
    (by simpa using hrej) (by simpa using hacc)
  simp only [Nat.zero_add] at h
  unfold Rounded.nextNormalGaussian
  rw [h]

theorem Rounded.radius_const {D : Type} [LinearOrderedField D] (rnd : D → D)
    (h1 : rnd 1 = 1) (h2 : rnd 2 = 2) (M : ℕ) (hM : 0 < M) (p : ℕ) :
    Rounded.radius rnd M (fun _ => M) p = 2 := by
  have hM' : (M : D) ≠ 0 := Nat.cast_ne_zero.2 (Nat.pos_iff_ne_zero.1 hM)
  have hc : ∀ q, Rounded.candidate rnd M (fun _ => M) q = 1 := fun q => by
    unfold Rounded.candidate Rounded.randomDouble
    rw [div_self hM', h1, mul_one, h2]
    norm_num [h1]
  unfold Rounded.radius
  rw [hc, hc, mul_one, h1]
  norm_num [h2]

theorem Rounded.sample_candidate_0 :
    Rounded.candidate (roundFloat 53) 2147483647 Rounded.sampleRand 0 = (2250487550180765 / 2251799813685248) := by
  have h1 : roundFloat 53 ((2146857911 : ℚ) / 2147483647) = (4502287363866013 / 4503599627370496) :=
    (roundFloat_eq_val 53 ((2146857911 : ℚ) / 2147483647) (4502287363866013 / 4503599627370496) (-1) 9004574727732026 (by norm_num) (by norm_num) (by norm_num) (by norm_num) (by norm_num) (by norm_num))
  have h2 : roundFloat 53 (2 * (4502287363866013 / 4503599627370496)) = (4502287363866013 / 2251799813685248) :=
    (by rw [roundFloat_eq_self 53 (2 * (4502287363866013 / 4503599627370496)) (4502287363866013) (-51) (by norm_num) (by norm_num)]; norm_num)
  have h3 : roundFloat 53 ((4502287363866013 / 2251799813685248) - 1) = (2250487550180765 / 2251799813685248) :=
    (by rw [roundFloat_eq_self 53 ((4502287363866013 / 2251799813685248) - 1) (2250487550180765) (-51) (by norm_num) (by norm_num)]; norm_num)
  show roundFloat 53 (roundFloat 53 (2 * roundFloat 53 (((2146857911 : ℕ) : ℚ) / ((2147483647 : ℕ) : ℚ))) - 1)
    = _
  simp only [Nat.cast_ofNat]
  rw [h1, h2, h3]

theorem Rounded.sample_candidate_1 :
    Rounded.candidate (roundFloat 53) 2147483647 Rounded.sampleRand 1 = (76864734399441 / 2251799813685248) := by
  have h1 : roundFloat 53 ((1110393785 : ℚ) / 2147483647) = (2328664548084689 / 4503599627370496) :=
    (roundFloat_eq_val 53 ((1110393785 : ℚ) / 2147483647) (2328664548084689 / 4503599627370496) (-1) 4657329096169378 (by norm_num) (by norm_num) (by norm_num) (by norm_num) (by norm_num) (by norm_num))
  have h2 : roundFloat 53 (2 * (2328664548084689 / 4503599627370496)) = (2328664548084689 / 2251799813685248) :=
    (by rw [roundFloat_eq_self 53 (2 * (2328664548084689 / 4503599627370496)) (2328664548084689) (-51) (by norm_num) (by norm_num)]; norm_num)
  have h3 : roundFloat 53 ((2328664548084689 / 2251799813685248) - 1) = (76864734399441 / 2251799813685248) :=
    (by rw [roundFloat_eq_self 53 ((2328664548084689 / 2251799813685248) - 1) (76864734399441) (-51) (by norm_num) (by norm_num)]; norm_num)
  show roundFloat 53 (roundFloat 53 (2 * roundFloat 53 (((1110393785 : ℕ) : ℚ) / ((2147483647 : ℕ) : ℚ))) - 1)
    = _
  simp only [Nat.cast_ofNat]
  rw [h1, h2, h3]

theorem Rounded.sample_candidate_2 :
    Rounded.candidate (roundFloat 53) 2147483647 Rounded.sampleRand 2 = (4503593952477181 / 4503599627370496) := by
  have h1 : roundFloat 53 ((2147482294 : ℚ) / 2147483647) = (9007193579847677 / 9007199254740992) :=
    (roundFloat_eq_val 53 ((2147482294 : ℚ) / 2147483647) (9007193579847677 / 9007199254740992) (-1) 9007193579847677 (by norm_num) (by norm_num) (by norm_num) (by norm_num) (by norm_num) (by norm_num))
  have h2 : roundFloat 53 (2 * (9007193579847677 / 9007199254740992)) = (9007193579847677 / 4503599627370496) :=
    (by rw [roundFloat_eq_self 53 (2 * (9007193579847677 / 9007199254740992)) (9007193579847677) (-52) (by norm_num) (by norm_num)]; norm_num)
  have h3 : roundFloat 53 ((9007193579847677 / 4503599627370496) - 1) = (4503593952477181 / 4503599627370496) :=
    (by rw [roundFloat_eq_self 53 ((9007193579847677 / 4503599627370496) - 1) (4503593952477181) (-52) (by norm_num) (by norm_num)]; norm_num)
  show roundFloat 53 (roundFloat 53 (2 * roundFloat 53 (((2147482294 : ℕ) : ℚ) / ((2147483647 : ℕ) : ℚ))) - 1)
    = _
  simp only [Nat.cast_ofNat]
  rw [h1, h2, h3]

theorem Rounded.sample_candidate_3 :
    Rounded.candidate (roundFloat 53) 2147483647 Rounded.sampleRand 3 = (7149465898241 / 4503599627370496) := by
  have h1 : roundFloat 53 ((1075446389 : ℚ) / 2147483647) = (4510749093268737 / 9007199254740992) :=
    (roundFloat_eq_val 53 ((1075446389 : ℚ) / 2147483647) (4510749093268737 / 9007199254740992) (-1) 4510749093268737 (by norm_num) (by norm_num) (by norm_num) (by norm_num) (by norm_num) (by norm_num))
  have h2 : roundFloat 53 (2 * (4510749093268737 / 9007199254740992)) = (4510749093268737 / 4503599627370496) :=
    (by rw [roundFloat_eq_self 53 (2 * (4510749093268737 / 9007199254740992)) (4510749093268737) (-52) (by norm_num) (by norm_num)]; norm_num)
  have h3 : roundFloat 53 ((4510749093268737 / 4503599627370496) - 1) = (7149465898241 / 4503599627370496) :=
    (by rw [roundFloat_eq_self 53 ((4510749093268737 / 4503599627370496) - 1) (7149465898241) (-52) (by norm_num) (by norm_num)]; norm_num)
  show roundFloat 53 (roundFloat 53 (2 * roundFloat 53 (((1075446389 : ℕ) : ℚ) / ((2147483647 : ℕ) : ℚ))) - 1)
    = _
  simp only [Nat.cast_ofNat]
  rw [h1, h2, h3]

theorem Rounded.sample_radius_0 :
    Rounded.radius (roundFloat 53) 2147483647 Rounded.sampleRand 0 = 1 := by
  have h1 : roundFloat 53 ((2250487550180765 / 2251799813685248) * (2250487550180765 / 2251799813685248)) = (8996704205654675 / 9007199254740992) :=
    (roundFloat_eq_val 53 ((2250487550180765 / 2251799813685248) * (2250487550180765 / 2251799813685248)) (8996704205654675 / 9007199254740992) (-1) 8996704205654675 (by norm_num) (by norm_num) (by norm_num) (by norm_num) (by norm_num) (by norm_num))
  have h2 : roundFloat 53 ((76864734399441 / 2251799813685248) * (76864734399441 / 2251799813685248)) = (83960392690537 / 72057594037927936) :=
    (roundFloat_eq_val 53 ((76864734399441 / 2251799813685248) * (76864734399441 / 2251799813685248)) (83960392690537 / 72057594037927936) (-10) 5373465132194368 (by norm_num) (by norm_num) (by norm_num) (by norm_num) (by norm_num) (by norm_num))
  have h3 : roundFloat 53 ((8996704205654675 / 9007199254740992) + (83960392690537 / 72057594037927936)) = 1 :=
    (roundFloat_eq_val 53 ((8996704205654675 / 9007199254740992) + (83960392690537 / 72057594037927936)) 1 (0) 4503599627370496 (by norm_num) (by norm_num) (by norm_num) (by norm_num) (by norm_num) (by norm_num))
  show roundFloat 53
      (roundFloat 53 (Rounded.candidate (roundFloat 53) 2147483647 Rounded.sampleRand 0
        * Rounded.candidate (roundFloat 53) 2147483647 Rounded.sampleRand 0)
      + roundFloat 53 (Rounded.candidate (roundFloat 53) 2147483647 Rounded.sampleRand 1
        * Rounded.candidate (roundFloat 53) 2147483647 Rounded.sampleRand 1)) = _
  rw [Rounded.sample_candidate_0, Rounded.sample_candidate_1, h1, h2, h3]

theorem Rounded.sample_radius_2 :
    Rounded.radius (roundFloat 53) 2147483647 Rounded.sampleRand 2 = (9007199254740991 / 9007199254740992) := by
  have h1 : roundFloat 53 ((4503593952477181 / 4503599627370496) * (4503593952477181 / 4503599627370496)) = (4503588277591017 / 4503599627370496) :=
    (roundFloat_eq_val 53 ((4503593952477181 / 4503599627370496) * (4503593952477181 / 4503599627370496)) (4503588277591017 / 4503599627370496) (-1) 9007176555182034 (by norm_num) (by norm_num) (by norm_num) (by norm_num) (by norm_num) (by norm_num))
  have h2 : roundFloat 53 ((7149465898241 / 4503599627370496) * (7149465898241 / 4503599627370496)) = (2975276591611967 / 1180591620717411303424) :=
    (roundFloat_eq_val 53 ((7149465898241 / 4503599627370496) * (7149465898241 / 4503599627370496)) (2975276591611967 / 1180591620717411303424) (-19) 5950553183223934 (by norm_num) (by norm_num) (by norm_num) (by norm_num) (by norm_num) (by norm_num))
  have h3 : roundFloat 53 ((4503588277591017 / 4503599627370496) + (2975276591611967 / 1180591620717411303424)) = (9007199254740991 / 9007199254740992) :=
    (roundFloat_eq_val 53 ((4503588277591017 / 4503599627370496) + (2975276591611967 / 1180591620717411303424)) (9007199254740991 / 9007199254740992) (-1) 9007199254740991 (by norm_num) (by norm_num) (by norm_num) (by norm_num) (by norm_num) (by norm_num))
  show roundFloat 53
      (roundFloat 53 (Rounded.candidate (roundFloat 53) 2147483647 Rounded.sampleRand 2
        * Rounded.candidate (roundFloat 53) 2147483647 Rounded.sampleRand 2)
      + roundFloat 53 (Rounded.candidate (roundFloat 53) 2147483647 Rounded.sampleRand 3
        * Rounded.candidate (roundFloat 53) 2147483647 Rounded.sampleRand 3)) = _
  rw [Rounded.sample_candidate_2, Rounded.sample_candidate_3, h1, h2, h3]

/-- C10: `nextNormalGaussian()`, run from a fresh generator over the draws
`u0, u1, ...` (`u i = rand i / RAND_MAX`), forms the pairs `v1 = 2 * u(2j) - 1`,
`v2 = 2 * u(2j+1) - 1` with `r = v1 * v1 + v2 * v2`, passes over every pair that
does not satisfy `0 < r < 1` (those with `r >= 1` or `r == 0`), and at the first
pair `k` with `0 < r < 1` returns exactly `v1 * sqrt(-2 * log(r) / r)`, after
`2 * (k + 1)` draws.  Every operation is the `double` one: `v1`, `v2`, `r` and
the value returned are the computed numbers, and the tests are made on the
computed `r`.  Of the rounding only this is assumed: it sends no nonnegative
number below zero.  Any fuel above `k` is enough. -/
theorem Rounded.nextNormalGaussian_first_accepted (D : Type) [LinearOrderedField D]
    (rnd sqrt log : D → D) (M : ℕ) (rand : ℕ → ℕ) (k fuel : ℕ)
    (hnn : ∀ x : D, 0 ≤ x → 0 ≤ rnd x)
    (hrej : ∀ j < k, ¬ (0 < Rounded.radius rnd M rand (2 * j) ∧
      Rounded.radius rnd M rand (2 * j) < 1))
    (hacc : 0 < Rounded.radius rnd M rand (2 * k) ∧ Rounded.radius rnd M rand (2 * k) < 1)
    (hfuel : k < fuel) :
    (∀ j < k, Rounded.radius rnd M rand (2 * j) ≥ 1 ∨ Rounded.radius rnd M rand (2 * j) = 0) ∧
    Rounded.nextNormalGaussian rnd sqrt log M rand fuel 0 =
      some (rnd (Rounded.candidate rnd M rand (2 * k) *
        sqrt (rnd (rnd (-2 * log (Rounded.radius rnd M rand (2 * k)))
          / Rounded.radius rnd M rand (2 * k)))), 2 * (k + 1)) :=
  ⟨fun j hj => (Rounded.reject_iff_rnd rnd hnn M rand (2 * j)).2 (hrej j hj),
    Rounded.nextNormalGaussian_some rnd sqrt log hnn M rand k fuel hrej hacc hfuel⟩

/-- Witness of C10 with the rounding of `double` and the library values of
`sqrt` and `log`: on the sample run the first pair is rejected (its `r` is
computed as `1.0`) and the second is accepted (its `r` is computed as
`0.9999999999999999`), so the call returns after four draws. -/
theorem Rounded.nextNormalGaussian_first_accepted_witness :
    (Rounded.radius (roundFloat 53) 2147483647 Rounded.sampleRand (2 * 0) ≥ 1 ∨
      Rounded.radius (roundFloat 53) 2147483647 Rounded.sampleRand (2 * 0) = 0) ∧
    Rounded.nextNormalGaussian (roundFloat 53) Rounded.sampleSqrt Rounded.sampleLog 2147483647
      Rounded.sampleRand 2 0 = some ((4503593952477181 / 302231454903657293676544), 4) := by
  have h := Rounded.nextNormalGaussian_first_accepted ℚ (roundFloat 53) Rounded.sampleSqrt
    Rounded.sampleLog 2147483647 Rounded.sampleRand 1 2 (roundFloat_nonneg 53)
    (by
      intro j hj
      obtain rfl : j = 0 := by omega
      rw [Rounded.sample_radius_0]
      norm_num)
    (by
      rw [Rounded.sample_radius_2]
      norm_num)
    (by norm_num)
  have hl : Rounded.sampleLog (9007199254740991 / 9007199254740992) = (-1 / 9007199254740992) := by
    norm_num [Rounded.sampleLog]
  have ht : roundFloat 53 (-2 * (-1 / 9007199254740992)) = (1 / 4503599627370496) :=
    (by rw [roundFloat_eq_self 53 (-2 * (-1 / 9007199254740992)) (1) (-52) (by norm_num) (by norm_num)]; norm_num)
  have hs : roundFloat 53 ((1 / 4503599627370496) / (9007199254740991 / 9007199254740992)) = (4503599627370497 / 20282409603651670423947251286016) :=
    (roundFloat_eq_val 53 ((1 / 4503599627370496) / (9007199254740991 / 9007199254740992)) (4503599627370497 / 20282409603651670423947251286016) (-52) 4503599627370497 (by norm_num) (by norm_num) (by norm_num) (by norm_num) (by norm_num) (by norm_num))
  have hd : Rounded.sampleSqrt (4503599627370497 / 20282409603651670423947251286016) = (1 / 67108864) := by
    norm_num [Rounded.sampleSqrt]
  have hv : roundFloat 53 ((4503593952477181 / 4503599627370496) * (1 / 67108864)) = (4503593952477181 / 302231454903657293676544) :=
    (by rw [roundFloat_eq_self 53 ((4503593952477181 / 4503599627370496) * (1 / 67108864)) (4503593952477181) (-78) (by norm_num) (by norm_num)]; norm_num)
  refine ⟨h.1 0 (by norm_num), ?_⟩
  rw [h.2, show (2 * 1 : ℕ) = 2 from rfl, Rounded.sample_candidate_2, Rounded.sample_radius_2,
    hl, ht, hs, hd, hv]

/-- C16: the rejection loop of `nextNormalGaussian` has no cap of its own and
terminates exactly when the source supplies an accepted pair, the test being
made on the computed `r`.  If pair `k` (counting from 0) is the first with
`0 < r < 1`, the call does not return within `k` iterations and returns within
`k + 1`, having made `2 * (k + 1)` draws.  Some fuel makes the call return if and
only if some pair is accepted; on a source with no accepted pair no fuel does,
and the source that always draws `RAND_MAX` (every uniform draw `1`, so `r = 2`)
is one.  Of the rounding only this is assumed: it sends no nonnegative number
below zero and leaves `1` and `2` unchanged. -/
theorem Rounded.nextNormalGaussian_terminates_iff (D : Type) [LinearOrderedField D]
    (rnd sqrt log : D → D) (M : ℕ) (rand : ℕ → ℕ) (hnn : ∀ x : D, 0 ≤ x → 0 ≤ rnd x) :
    (∀ k : ℕ,
      (∀ j < k, ¬ (0 < Rounded.radius rnd M rand (2 * j) ∧
        Rounded.radius rnd M rand (2 * j) < 1)) →
      (0 < Rounded.radius rnd M rand (2 * k) ∧ Rounded.radius rnd M rand (2 * k) < 1) →
      (∀ fuel, fuel ≤ k → Rounded.nextNormalGaussian rnd sqrt log M rand fuel 0 = none) ∧
      (∀ fuel, k < fuel → ∃ v, Rounded.nextNormalGaussian rnd sqrt log M rand fuel 0
        = some (v, 2 * (k + 1)))) ∧
    ((∃ fuel v c, Rounded.nextNormalGaussian rnd sqrt log M rand fuel 0 = some (v, c)) ↔
      ∃ k, 0 < Rounded.radius rnd M rand (2 * k) ∧ Rounded.radius rnd M rand (2 * k) < 1) ∧
    ((∀ k, ¬ (0 < Rounded.radius rnd M rand (2 * k) ∧
        Rounded.radius rnd M rand (2 * k) < 1)) →
      ∀ fuel, Rounded.nextNormalGaussian rnd sqrt log M rand fuel 0 = none) ∧
    (0 < M → rnd 1 = 1 → rnd 2 = 2 →
      (∀ p, Rounded.radius rnd M (fun _ => M) p = 2) ∧
      ∀ fuel, Rounded.nextNormalGaussian rnd sqrt log M (fun _ => M) fuel 0 = none) := by
  refine ⟨fun k hrej hacc => ⟨fun fuel hf => ?_, fun fuel hf => ⟨_,
    Rounded.nextNormalGaussian_some rnd sqrt log hnn M rand k fuel hrej hacc hf⟩⟩, ⟨?_, ?_⟩,
    fun hno fuel => Rounded.nextNormalGaussian_none rnd sqrt log hnn M rand fuel
      fun j _ => hno j,
    fun hM h1 h2 => ?_⟩
  · exact Rounded.nextNormalGaussian_none rnd sqrt log hnn M rand fuel
      fun j hj => hrej j (by omega)
  · rintro ⟨fuel, v, c, h⟩
    by_contra hno
    rw [Rounded.nextNormalGaussian_none rnd sqrt log hnn M rand fuel
      fun j _ hj => hno ⟨j, hj⟩] at h
    cases h
  · intro hex
    have hmin := fun j (hj : j < Nat.find hex) => Nat.find_min hex hj
    exact ⟨Nat.find hex + 1, _, _, Rounded.nextNormalGaussian_some rnd sqrt log hnn M rand
      (Nat.find hex) (Nat.find hex + 1) hmin (Nat.find_spec hex) (Nat.lt_succ_self _)⟩
  · have hr := Rounded.radius_const rnd h1 h2 M hM
    refine ⟨hr, fun fuel => Rounded.nextNormalGaussian_none rnd sqrt log hnn M _ fuel
      fun j _ hj => ?_⟩
    rw [hr] at hj
    exact absurd hj.2 (by norm_num)

/-- Witness of C16 with the rounding of `double` and the library values of
`sqrt` and `log`: on the sample run the first accepted pair is pair `1` (pair `0`
has `r` computed as `1.0`), so the call does not return with fuel `1` and returns
with fuel `2` after `4` draws; and with `RAND_MAX = 2147483647` always drawn it
does not return with fuel `1000`. -/
theorem Rounded.nextNormalGaussian_terminates_iff_witness :
    (Rounded.nextNormalGaussian (roundFloat 53) Rounded.sampleSqrt Rounded.sampleLog 2147483647
        Rounded.sampleRand 1 0 = none ∧
      ∃ v, Rounded.nextNormalGaussian (roundFloat 53) Rounded.sampleSqrt Rounded.sampleLog
        2147483647 Rounded.sampleRand 2 0 = some (v, 2 * (1 + 1))) ∧
    Rounded.nextNormalGaussian (roundFloat 53) Rounded.sampleSqrt Rounded.sampleLog 2147483647
      (fun _ => 2147483647) 1000 0 = none := by
  have h := (Rounded.nextNormalGaussian_terminates_iff ℚ (roundFloat 53) Rounded.sampleSqrt
    Rounded.sampleLog 2147483647 Rounded.sampleRand (roundFloat_nonneg 53)).1 1
    (by
      intro j hj
      obtain rfl : j = 0 := by omega
      rw [Rounded.sample_radius_0]
      norm_num)
    (by
      rw [Rounded.sample_radius_2]
      norm_num)
  exact ⟨⟨h.1 1 (le_refl 1), h.2 2 (by norm_num)⟩,
    ((Rounded.nextNormalGaussian_terminates_iff ℚ (roundFloat 53) Rounded.sampleSqrt
      Rounded.sampleLog 2147483647 (fun _ => 2147483647) (roundFloat_nonneg 53)).2.2.2 (by norm_num)
      (roundFloat_eq_self 53 1 1 0 (by norm_num) (by norm_num))
      (roundFloat_eq_self 53 2 1 1 (by norm_num) (by norm_num))).2 1000⟩

/-! ## The cached sampler `nextGaussian`, with rounding -/

theorem Rounded.gaussRadius_nonneg_rnd {D : Type} [LinearOrderedField D] (rnd : D → D)
    (hnn : ∀ x : D, 0 ≤ x → 0 ≤ rnd x) (drand48 : ℕ → D) (p : ℕ) :
    0 ≤ Rounded.gaussRadius rnd drand48 p :=
  hnn _ (add_nonneg (hnn _ (mul_self_nonneg _)) (hnn _ (mul_self_nonneg _)))

theorem Rounded.gauss_reject_iff_rnd {D : Type} [LinearOrderedField D] (rnd : D → D)
    (hnn : ∀ x : D, 0 ≤ x → 0 ≤ rnd x) (drand48 : ℕ → D) (p : ℕ) :
    (Rounded.gaussRadius rnd drand48 p = 0 ∨ Rounded.gaussRadius rnd drand48 p > 1) ↔
      ¬ (0 < Rounded.gaussRadius rnd drand48 p ∧ Rounded.gaussRadius rnd drand48 p ≤ 1) := by
  have h := Rounded.gaussRadius_nonneg_rnd rnd hnn drand48 p
  constructor
  · rintro (h0 | h1) ⟨hpos, hle⟩
    · exact absurd h0 hpos.ne'
    · exact absurd hle (not_le.2 h1)
  · intro hn
    by_cases h1 : Rounded.gaussRadius rnd drand48 p > 1
    · exact Or.inr h1
    · exact Or.inl (le_antisymm (not_lt.1 fun hpos => hn ⟨hpos, not_lt.1 h1⟩) h)

theorem Rounded.nextGaussianLoop_step_rnd {D : Type} [LinearOrderedField D] (rnd : D → D)
    (drand48 : ℕ → D) (fuel calls : ℕ) :
    Rounded.nextGaussianLoop rnd drand48 (fuel + 1) calls =
      if Rounded.gaussRadius rnd drand48 calls = 0 ∨ Rounded.gaussRadius rnd drand48 calls > 1
      then Rounded.nextGaussianLoop rnd drand48 fuel (calls + 2)
      else some (Rounded.gaussCandidate rnd drand48 calls,
        Rounded.gaussCandidate rnd drand48 (calls + 1),
        Rounded.gaussRadius rnd drand48 calls, calls + 2) :=
  rfl

theorem Rounded.nextGaussianLoop_accept_rnd {D : Type} [LinearOrderedField D] (rnd : D → D)
    (hnn : ∀ x : D, 0 ≤ x → 0 ≤ rnd x) (drand48 : ℕ → D) :
    ∀ (k fuel calls : ℕ), k < fuel →
      (∀ j < k, ¬ (0 < Rounded.gaussRadius rnd drand48 (calls + 2 * j) ∧
        Rounded.gaussRadius rnd drand48 (calls + 2 * j) ≤ 1)) →
      (0 < Rounded.gaussRadius rnd drand48 (calls + 2 * k) ∧
        Rounded.gaussRadius rnd drand48 (calls + 2 * k) ≤ 1) →
      Rounded.nextGaussianLoop rnd drand48 fuel calls =
        some (Rounded.gaussCandidate rnd drand48 (calls + 2 * k),
          Rounded.gaussCandidate rnd drand48 (calls + 2 * k + 1),
          Rounded.gaussRadius rnd drand48 (calls + 2 * k), calls + 2 * (k + 1)) := by
  intro k
  induction k with
  | zero =>
    intro fuel calls hfuel _ hacc
    obtain ⟨f, rfl⟩ : ∃ f, fuel = f + 1 := ⟨fuel - 1, by omega⟩
    rw [Rounded.nextGaussianLoop_step_rnd, if_neg]
    · rfl
    · rw [Rounded.gauss_reject_iff_rnd rnd hnn, not_not]
      exact hacc
  | succ k ih =>
    intro fuel calls hfuel hrej hacc
    obtain ⟨f, rfl⟩ : ∃ f, fuel = f + 1 := ⟨fuel - 1, by omega⟩
    have h0 := hrej 0 (Nat.succ_pos k)
    rw [Rounded.nextGaussianLoop_step_rnd,
      if_pos ((Rounded.gauss_reject_iff_rnd rnd hnn drand48 calls).2 h0)]
    have hidx : ∀ j, calls + 2 + 2 * j = calls + 2 * (j + 1) := fun j => by ring
    rw [ih f (calls + 2) (by omega)]
    · rw [hidx k, hidx (k + 1)]
    · intro j hj
      rw [hidx j]
      exact hrej (j + 1) (by omega)
    · rw [hidx k]
      exact hacc

theorem Rounded.nextGaussian_fresh_rnd {D : Type} [LinearOrderedField D] (rnd sqrt log : D → D)
    (hnn : ∀ x : D, 0 ≤ x → 0 ≤ rnd x) (drand48 : ℕ → D) (mean stddev : D)
    (s : Random.GaussState D) (k fuel : ℕ) (hs : s.n2_cached = 0)
    (hrej : ∀ j < k, ¬ (0 < Rounded.gaussRadius rnd drand48 (s.calls + 2 * j) ∧
      Rounded.gaussRadius rnd drand48 (s.calls + 2 * j) ≤ 1))
    (hacc : 0 < Rounded.gaussRadius rnd drand48 (s.calls + 2 * k) ∧
      Rounded.gaussRadius rnd drand48 (s.calls + 2 * k) ≤ 1)
    (hfuel : k < fuel) :
    Rounded.nextGaussian rnd sqrt log drand48 fuel mean stddev s =
      some (rnd (rnd (rnd (Rounded.gaussCandidate rnd drand48 (s.calls + 2 * k) *
          Rounded.polarFactor rnd sqrt log (Rounded.gaussRadius rnd drand48 (s.calls + 2 * k)))
            * stddev) + mean),
        { n2 := rnd (Rounded.gaussCandidate rnd drand48 (s.calls + 2 * k + 1) *
            Rounded.polarFactor rnd sqrt log
              (Rounded.gaussRadius rnd drand48 (s.calls + 2 * k))),
          n2_cached := 1,
          calls := s.calls + 2 * (k + 1) }) := by
  unfold Rounded.nextGaussian
  rw [if_pos hs, Rounded.nextGaussianLoop_accept_rnd rnd hnn drand48 k fuel s.calls hfuel hrej hacc]
  rfl

theorem Rounded.nextGaussian_cached_rnd {D : Type} [LinearOrderedField D] (rnd sqrt log : D → D)
    (drand48 : ℕ → D) (mean stddev : D) (s : Random.GaussState D) (fuel : ℕ)
    (hs : s.n2_cached ≠ 0) :
    Rounded.nextGaussian rnd sqrt log drand48 fuel mean stddev s =
      some (rnd (rnd (s.n2 * stddev) + mean),
        { n2 := s.n2, n2_cached := 0, calls := s.calls }) := by
  unfold Rounded.nextGaussian
  rw [if_neg hs]

theorem Rounded.nextGaussian_two {D : Type} [LinearOrderedField D] (rnd sqrt log : D → D)
    (hnn : ∀ x : D, 0 ≤ x → 0 ≤ rnd x) (hid : ∀ z : D, rnd (rnd z) = rnd z)
    (drand48 : ℕ → D) (s : Random.GaussState D) (k fuel : ℕ) (hs : s.n2_cached = 0)
    (hrej : ∀ j < k, ¬ (0 < Rounded.gaussRadius rnd drand48 (s.calls + 2 * j) ∧
      Rounded.gaussRadius rnd drand48 (s.calls + 2 * j) ≤ 1))
    (hacc : 0 < Rounded.gaussRadius rnd drand48 (s.calls + 2 * k) ∧
      Rounded.gaussRadius rnd drand48 (s.calls + 2 * k) ≤ 1)
    (hfuel : k < fuel) :
    Rounded.nextGaussian rnd sqrt log drand48 fuel 0 1 s =
        some (rnd (Rounded.gaussCandidate rnd drand48 (s.calls + 2 * k) *
          Rounded.polarFactor rnd sqrt log (Rounded.gaussRadius rnd drand48 (s.calls + 2 * k))),
          { n2 := rnd (Rounded.gaussCandidate rnd drand48 (s.calls + 2 * k + 1) *
              Rounded.polarFactor rnd sqrt log
                (Rounded.gaussRadius rnd drand48 (s.calls + 2 * k))),
            n2_cached := 1,
            calls := s.calls + 2 * (k + 1) }) ∧
    Rounded.nextGaussian rnd sqrt log drand48 fuel 0 1
        { n2 := rnd (Rounded.gaussCandidate rnd drand48 (s.calls + 2 * k + 1) *
            Rounded.polarFactor rnd sqrt log
              (Rounded.gaussRadius rnd drand48 (s.calls + 2 * k))),
          n2_cached := 1,
          calls := s.calls + 2 * (k + 1) } =
        some (rnd (Rounded.gaussCandidate rnd drand48 (s.calls + 2 * k + 1) *
          Rounded.polarFactor rnd sqrt log (Rounded.gaussRadius rnd drand48 (s.calls + 2 * k))),
          { n2 := rnd (Rounded.gaussCandidate rnd drand48 (s.calls + 2 * k + 1) *
              Rounded.polarFactor rnd sqrt log
                (Rounded.gaussRadius rnd drand48 (s.calls + 2 * k))),
            n2_cached := 0,
            calls := s.calls + 2 * (k + 1) }) := by
  constructor
  · rw [Rounded.nextGaussian_fresh_rnd rnd sqrt log hnn drand48 0 1 s k fuel hs hrej hacc hfuel,
      mul_one, add_zero, hid, hid]
  · rw [Rounded.nextGaussian_cached_rnd rnd sqrt log drand48 0 1 _ fuel
      (one_ne_zero : (1 : Int) ≠ 0)]
    simp only [mul_one, add_zero, hid]

theorem Rounded.sampleDrand48_candidate_0 :
    Rounded.gaussCandidate (roundFloat 53) Rounded.sampleDrand48 0 = (-1 / 4) := by
  show roundFloat 53 ((3 / 4) - 1) = _
  exact (by rw [roundFloat_eq_self 53 ((3 / 4) - 1) (-1) (-2) (by norm_num) (by norm_num)]; norm_num)

theorem Rounded.sampleDrand48_candidate_1 :
    Rounded.gaussCandidate (roundFloat 53) Rounded.sampleDrand48 (0 + 1) = (-1 / 2) := by
  show roundFloat 53 ((1 / 2) - 1) = _
  exact (by rw [roundFloat_eq_self 53 ((1 / 2) - 1) (-1) (-1) (by norm_num) (by norm_num)]; norm_num)

theorem Rounded.sampleDrand48_radius :
    Rounded.gaussRadius (roundFloat 53) Rounded.sampleDrand48 0 = (5 / 16) := by
  have h1 : roundFloat 53 ((-1 / 4) * (-1 / 4)) = (1 / 16) :=
    (by rw [roundFloat_eq_self 53 ((-1 / 4) * (-1 / 4)) (1) (-4) (by norm_num) (by norm_num)]; norm_num)
  have h2 : roundFloat 53 ((-1 / 2) * (-1 / 2)) = (1 / 4) :=
    (by rw [roundFloat_eq_self 53 ((-1 / 2) * (-1 / 2)) (1) (-2) (by norm_num) (by norm_num)]; norm_num)
  have h3 : roundFloat 53 ((1 / 16) + (1 / 4)) = (5 / 16) :=
    (by rw [roundFloat_eq_self 53 ((1 / 16) + (1 / 4)) (5) (-4) (by norm_num) (by norm_num)]; norm_num)
  unfold Rounded.gaussRadius
  rw [Rounded.sampleDrand48_candidate_0, Rounded.sampleDrand48_candidate_1, h1, h2, h3]

theorem Rounded.sampleDrand48_polarFactor :
    Rounded.polarFactor (roundFloat 53) Rounded.sampleSqrt Rounded.sampleLog (5 / 16)
      = (6143810043326269 / 2251799813685248) := by
  have hl : Rounded.sampleLog (5 / 16) = (-5238365553616555 / 4503599627370496) := by
    norm_num [Rounded.sampleLog]
  have ht : roundFloat 53 (-2 * (-5238365553616555 / 4503599627370496)) = (5238365553616555 / 2251799813685248) :=
    (by rw [roundFloat_eq_self 53 (-2 * (-5238365553616555 / 4503599627370496)) (5238365553616555) (-51) (by norm_num) (by norm_num)]; norm_num)
  have hs : roundFloat 53 ((5238365553616555 / 2251799813685248) / (5 / 16)) = (1047673110723311 / 140737488355328) :=
    (by rw [roundFloat_eq_self 53 ((5238365553616555 / 2251799813685248) / (5 / 16)) (1047673110723311) (-47) (by norm_num) (by norm_num)]; norm_num)
  have hd : Rounded.sampleSqrt (1047673110723311 / 140737488355328) = (6143810043326269 / 2251799813685248) := by
    norm_num [Rounded.sampleSqrt]
  unfold Rounded.polarFactor
  rw [hl, ht, hs, hd]

theorem Rounded.sampleDrand48_calls :
    Rounded.nextGaussian (roundFloat 53) Rounded.sampleSqrt Rounded.sampleLog Rounded.sampleDrand48 1 0 1
        Random.GaussState.init
      = some ((-6143810043326269 / 9007199254740992), { n2 := (-6143810043326269 / 4503599627370496), n2_cached := 1, calls := 2 }) ∧
    Rounded.nextGaussian (roundFloat 53) Rounded.sampleSqrt Rounded.sampleLog Rounded.sampleDrand48 1 0 1
        { n2 := (-6143810043326269 / 4503599627370496), n2_cached := 1, calls := 2 }
      = some ((-6143810043326269 / 4503599627370496), { n2 := (-6143810043326269 / 4503599627370496), n2_cached := 0, calls := 2 }) := by
  have h1 : roundFloat 53 ((-1 / 4) * (6143810043326269 / 2251799813685248)) = (-6143810043326269 / 9007199254740992) :=
    (by rw [roundFloat_eq_self 53 ((-1 / 4) * (6143810043326269 / 2251799813685248)) (-6143810043326269) (-53) (by norm_num) (by norm_num)]; norm_num)
  have h2 : roundFloat 53 ((-1 / 2) * (6143810043326269 / 2251799813685248)) = (-6143810043326269 / 4503599627370496) :=
    (by rw [roundFloat_eq_self 53 ((-1 / 2) * (6143810043326269 / 2251799813685248)) (-6143810043326269) (-52) (by norm_num) (by norm_num)]; norm_num)
  have e : (Random.GaussState.init : Random.GaussState ℚ).calls + 2 * 0 = 0 := rfl
  have e2 : (Random.GaussState.init : Random.GaussState ℚ).calls + 2 * (0 + 1) = 2 := rfl
  have h := Rounded.nextGaussian_two (roundFloat 53) Rounded.sampleSqrt Rounded.sampleLog
    (roundFloat_nonneg 53) (roundFloat_idem 53 (by norm_num)) Rounded.sampleDrand48
    Random.GaussState.init 0 1 rfl (fun j hj => absurd hj (Nat.not_lt_zero j))
    (by
      rw [e, Rounded.sampleDrand48_radius]
      norm_num)
    (by norm_num)
  rw [e2, e, Rounded.sampleDrand48_candidate_0, Rounded.sampleDrand48_candidate_1, Rounded.sampleDrand48_radius,
    Rounded.sampleDrand48_polarFactor, h1, h2] at h
  exact h

/-! ## `nextGaussian` against the loop of the specification -/

theorem Rounded.constDrand48_candidate (p : ℕ) :
    Rounded.gaussCandidate (roundFloat 53) (fun _ => (3 / 4 : ℚ)) p = (-1 / 4) := by
  show roundFloat 53 ((3 / 4) - 1) = _
  exact (by rw [roundFloat_eq_self 53 ((3 / 4) - 1) (-1) (-2) (by norm_num) (by norm_num)]; norm_num)

theorem Rounded.constDrand48_radius (p : ℕ) :
    Rounded.gaussRadius (roundFloat 53) (fun _ => (3 / 4 : ℚ)) p = (1 / 8) := by
  have h1 : roundFloat 53 ((-1 / 4) * (-1 / 4)) = (1 / 16) :=
    (by rw [roundFloat_eq_self 53 ((-1 / 4) * (-1 / 4)) (1) (-4) (by norm_num) (by norm_num)]; norm_num)
  have h3 : roundFloat 53 ((1 / 16) + (1 / 16)) = (1 / 8) :=
    (by rw [roundFloat_eq_self 53 ((1 / 16) + (1 / 16)) (1) (-3) (by norm_num) (by norm_num)]; norm_num)
  unfold Rounded.gaussRadius
  rw [Rounded.constDrand48_candidate, Rounded.constDrand48_candidate, h1, h3]

theorem Rounded.constDrand48_polarFactor :
    Rounded.polarFactor (roundFloat 53) Rounded.sampleSqrt Rounded.sampleLog (1 / 8)
      = (6494311749153973 / 1125899906842624) := by
  have hl : Rounded.sampleLog (1 / 8) = (-4682486076124019 / 2251799813685248) := by
    norm_num [Rounded.sampleLog]
  have ht : roundFloat 53 (-2 * (-4682486076124019 / 2251799813685248)) = (4682486076124019 / 1125899906842624) :=
    (by rw [roundFloat_eq_self 53 (-2 * (-4682486076124019 / 2251799813685248)) (4682486076124019) (-50) (by norm_num) (by norm_num)]; norm_num)
  have hs : roundFloat 53 ((4682486076124019 / 1125899906842624) / (1 / 8)) = (4682486076124019 / 140737488355328) :=
    (by rw [roundFloat_eq_self 53 ((4682486076124019 / 1125899906842624) / (1 / 8)) (4682486076124019) (-47) (by norm_num) (by norm_num)]; norm_num)
  have hd : Rounded.sampleSqrt (4682486076124019 / 140737488355328) = (6494311749153973 / 1125899906842624) := by
    norm_num [Rounded.sampleSqrt]
  unfold Rounded.polarFactor
  rw [hl, ht, hs, hd]

/-- C11 fails on the code: with every draw of `drand48()` equal to `0.75`,
`nextGaussian(0, 1)` on an empty cache takes the candidates `x = y = -0.25`
(`drand48() - 1`, without the factor `2`), so `r = 0.125`, and returns
`-1.4420268866...`; the loop of the specification takes `v1 = v2 = 0.5`
(`2 * u - 1`), so `r = 0.5`, and its value is `0.8325546111...`.  With the
rounding of `double` and the library values of `sqrt` and `log`. -/
theorem Rounded.nextGaussian_ne_gaussianSpec :
    Rounded.gaussCandidate (roundFloat 53) (fun _ => (3 / 4 : ℚ)) 0 = (-1 / 4) ∧
    Rounded.gaussRadius (roundFloat 53) (fun _ => (3 / 4 : ℚ)) 0 = (1 / 8) ∧
    (Rounded.nextGaussian (roundFloat 53) Rounded.sampleSqrt Rounded.sampleLog
        (fun _ => (3 / 4 : ℚ)) 1 0 1 Random.GaussState.init).map Prod.fst
      = some (-6494311749153973 / 4503599627370496) ∧
    Random.gaussianSpecLoop (fun _ => (3 / 4 : ℚ)) 1 0 = some ((1 / 2), (1 / 2), 2) ∧
    Random.gaussianSpec Rounded.sampleSqrt Rounded.sampleLog (fun _ => (3 / 4 : ℚ)) 1 0 1 0
      = some (7498985273150791 / 9007199254740992) ∧
    (Rounded.nextGaussian (roundFloat 53) Rounded.sampleSqrt Rounded.sampleLog
        (fun _ => (3 / 4 : ℚ)) 1 0 1 Random.GaussState.init).map Prod.fst
      ≠ Random.gaussianSpec Rounded.sampleSqrt Rounded.sampleLog (fun _ => (3 / 4 : ℚ)) 1 0 1 0 := by
  have h1 : roundFloat 53 ((-1 / 4) * (6494311749153973 / 1125899906842624)) = (-6494311749153973 / 4503599627370496) :=
    (by rw [roundFloat_eq_self 53 ((-1 / 4) * (6494311749153973 / 1125899906842624)) (-6494311749153973) (-52) (by norm_num) (by norm_num)]; norm_num)
  have e : (Random.GaussState.init : Random.GaussState ℚ).calls + 2 * 0 = 0 := rfl
  have hc := (Rounded.nextGaussian_two (roundFloat 53) Rounded.sampleSqrt Rounded.sampleLog
    (roundFloat_nonneg 53) (roundFloat_idem 53 (by norm_num)) (fun _ => (3 / 4 : ℚ))
    Random.GaussState.init 0 1 rfl (fun j hj => absurd hj (Nat.not_lt_zero j))
    (by
      rw [Rounded.constDrand48_radius]
      norm_num)
    (by norm_num)).1
  rw [Rounded.constDrand48_candidate, Rounded.constDrand48_radius,
    Rounded.constDrand48_polarFactor, h1] at hc
  have hloop : Random.gaussianSpecLoop (fun _ => (3 / 4 : ℚ)) 1 0 = some ((1 / 2), (1 / 2), 2) := by
    norm_num [Random.gaussianSpecLoop]
  have hl : Rounded.sampleLog (1 / 2) = (-6243314768165359 / 9007199254740992) := by
    norm_num [Rounded.sampleLog]
  have hd : Rounded.sampleSqrt (6243314768165359 / 2251799813685248) = (7498985273150791 / 4503599627370496) := by
    norm_num [Rounded.sampleSqrt]
  have hspec : Random.gaussianSpec Rounded.sampleSqrt Rounded.sampleLog (fun _ => (3 / 4 : ℚ)) 1 0 1 0
      = some (7498985273150791 / 9007199254740992) := by
    unfold Random.gaussianSpec
    rw [hloop]
    show some (0 + 1 * (1 / 2) * Rounded.sampleSqrt (-2 * Rounded.sampleLog (1 / 2) / (1 / 2)))
      = _
    rw [hl, show (-2 * (-6243314768165359 / 9007199254740992) / (1 / 2) : ℚ) = (6243314768165359 / 2251799813685248) by norm_num, hd]
    norm_num
  refine ⟨Rounded.constDrand48_candidate 0, Rounded.constDrand48_radius 0, ?_, hloop, hspec, ?_⟩
  · rw [hc]
    rfl
  · rw [hc, hspec]
    norm_num

/-- Counterexample to C13, with the rounding of `double` and the library values of
`sqrt` and `log`.  The draws `0.75, 0.5` of `drand48()` give `x = -0.25`,
`y = -0.5`, `r = 0.3125`, and two consecutive calls `nextGaussian(0, 1)` return
`n1` and `n2`; the sum `n1 * n1 + n2 * n2` as computed is one unit in the last
place below `-2.0 * log(r)`, and the exact sum of the two squares differs from
it too. -/
theorem Rounded.gaussian_pair_inexact :
    Rounded.gaussRadius (roundFloat 53) Rounded.sampleDrand48 0 = (5 / 16) ∧
    Rounded.nextGaussian (roundFloat 53) Rounded.sampleSqrt Rounded.sampleLog
        Rounded.sampleDrand48 1 0 1 Random.GaussState.init
      = some ((-6143810043326269 / 9007199254740992), { n2 := (-6143810043326269 / 4503599627370496), n2_cached := 1, calls := 2 }) ∧
    Rounded.nextGaussian (roundFloat 53) Rounded.sampleSqrt Rounded.sampleLog
        Rounded.sampleDrand48 1 0 1 { n2 := (-6143810043326269 / 4503599627370496), n2_cached := 1, calls := 2 }
      = some ((-6143810043326269 / 4503599627370496), { n2 := (-6143810043326269 / 4503599627370496), n2_cached := 0, calls := 2 }) ∧
    roundFloat 53 (roundFloat 53 ((-6143810043326269 / 9007199254740992) * (-6143810043326269 / 9007199254740992))
        + roundFloat 53 ((-6143810043326269 / 4503599627370496) * (-6143810043326269 / 4503599627370496)))
      = (2619182776808277 / 1125899906842624) ∧
    roundFloat 53 (-2 * Rounded.sampleLog (5 / 16)) = (5238365553616555 / 2251799813685248) ∧
    roundFloat 53 (roundFloat 53 ((-6143810043326269 / 9007199254740992) * (-6143810043326269 / 9007199254740992))
        + roundFloat 53 ((-6143810043326269 / 4503599627370496) * (-6143810043326269 / 4503599627370496)))
      ≠ roundFloat 53 (-2 * Rounded.sampleLog (5 / 16)) ∧
    ((-6143810043326269 / 9007199254740992) : ℚ) ^ 2 + (-6143810043326269 / 4503599627370496) ^ 2 ≠ -2 * Rounded.sampleLog (5 / 16) := by
  have hl : Rounded.sampleLog (5 / 16) = (-5238365553616555 / 4503599627370496) := by
    norm_num [Rounded.sampleLog]
  have ha : roundFloat 53 ((-6143810043326269 / 9007199254740992) * (-6143810043326269 / 9007199254740992)) = (8381384885786487 / 18014398509481984) :=
    (roundFloat_eq_val 53 ((-6143810043326269 / 9007199254740992) * (-6143810043326269 / 9007199254740992)) (8381384885786487 / 18014398509481984) (-2) 8381384885786487 (by norm_num) (by norm_num) (by norm_num) (by norm_num) (by norm_num) (by norm_num))
  have hb : roundFloat 53 ((-6143810043326269 / 4503599627370496) * (-6143810043326269 / 4503599627370496)) = (8381384885786487 / 4503599627370496) :=
    (roundFloat_eq_val 53 ((-6143810043326269 / 4503599627370496) * (-6143810043326269 / 4503599627370496)) (8381384885786487 / 4503599627370496) (0) 8381384885786487 (by norm_num) (by norm_num) (by norm_num) (by norm_num) (by norm_num) (by norm_num))
  have hc : roundFloat 53 ((8381384885786487 / 18014398509481984) + (8381384885786487 / 4503599627370496)) = (2619182776808277 / 1125899906842624) :=
    (roundFloat_eq_val 53 ((8381384885786487 / 18014398509481984) + (8381384885786487 / 4503599627370496)) (2619182776808277 / 1125899906842624) (1) 5238365553616554 (by norm_num) (by norm_num) (by norm_num) (by norm_num) (by norm_num) (by norm_num))
  have ht : roundFloat 53 (-2 * (-5238365553616555 / 4503599627370496)) = (5238365553616555 / 2251799813685248) :=
    (by rw [roundFloat_eq_self 53 (-2 * (-5238365553616555 / 4503599627370496)) (5238365553616555) (-51) (by norm_num) (by norm_num)]; norm_num)
  refine ⟨Rounded.sampleDrand48_radius, Rounded.sampleDrand48_calls.1,
    Rounded.sampleDrand48_calls.2, ?_, ?_, ?_, ?_⟩
  · rw [ha, hb, hc]
  · rw [hl, ht]
  · rw [ha, hb, hc, hl, ht]
    norm_num
  · rw [hl]
    norm_num

/-- C13, amended.  Two consecutive calls `nextGaussian(0, 1)`, the first made with
an empty cache and nothing in between, return a pair `(n1, n2)` that comes from
one accepted iteration of the rejection loop, the first pair `(x, y)` whose
computed `r = x * x + y * y` satisfies `0 < r <= 1`: `n1` is the `double` product
`x * d` and `n2` the `double` product `y * d` for the same
`d = sqrt(-2.0 * log(r) / r)` as computed.  The second call consumes no draw and
leaves the cache empty.  Of the rounding only this is assumed: it sends no
nonnegative number below zero and leaves its own values unchanged. -/
theorem Rounded.nextGaussian_pair (D : Type) [LinearOrderedField D] (rnd sqrt log : D → D)
    (drand48 : ℕ → D) (s : Random.GaussState D) (k fuel : ℕ)
    (hnn : ∀ x : D, 0 ≤ x → 0 ≤ rnd x) (hid : ∀ z : D, rnd (rnd z) = rnd z)
    (hs : s.n2_cached = 0)
    (hrej : ∀ j < k, ¬ (0 < Rounded.gaussRadius rnd drand48 (s.calls + 2 * j) ∧
      Rounded.gaussRadius rnd drand48 (s.calls + 2 * j) ≤ 1))
    (hacc : 0 < Rounded.gaussRadius rnd drand48 (s.calls + 2 * k) ∧
      Rounded.gaussRadius rnd drand48 (s.calls + 2 * k) ≤ 1)
    (hfuel : k < fuel) :
    ∃ n1 n2 s1 s2,
      Rounded.nextGaussian rnd sqrt log drand48 fuel 0 1 s = some (n1, s1) ∧
      Rounded.nextGaussian rnd sqrt log drand48 fuel 0 1 s1 = some (n2, s2) ∧
      n1 = rnd (Rounded.gaussCandidate rnd drand48 (s.calls + 2 * k) *
        Rounded.polarFactor rnd sqrt log (Rounded.gaussRadius rnd drand48 (s.calls + 2 * k))) ∧
      n2 = rnd (Rounded.gaussCandidate rnd drand48 (s.calls + 2 * k + 1) *
        Rounded.polarFactor rnd sqrt log (Rounded.gaussRadius rnd drand48 (s.calls + 2 * k))) ∧
      s1.calls = s.calls + 2 * (k + 1) ∧ s2.calls = s1.calls ∧ s2.n2_cached = 0 := by
  have h := Rounded.nextGaussian_two rnd sqrt log hnn hid drand48 s k fuel hs hrej hacc hfuel
  exact ⟨_, _, _, _, h.1, h.2, rfl, rfl, rfl, rfl, rfl⟩

/-- Witness of C13 as amended, with the rounding of `double` and the library
values of `sqrt` and `log`: on the draws `0.75, 0.5` the first pair is accepted
and the two calls return `-0.682099...` and `-1.364199...`, the products of
`x = -0.25` and `y = -0.5` with the same `d`. -/
theorem Rounded.nextGaussian_pair_witness :
    ∃ n1 n2 s1 s2,
      Rounded.nextGaussian (roundFloat 53) Rounded.sampleSqrt Rounded.sampleLog
        Rounded.sampleDrand48 1 0 1 Random.GaussState.init = some (n1, s1) ∧
      Rounded.nextGaussian (roundFloat 53) Rounded.sampleSqrt Rounded.sampleLog
        Rounded.sampleDrand48 1 0 1 s1 = some (n2, s2) ∧
      n1 = (-6143810043326269 / 9007199254740992) ∧ n2 = (-6143810043326269 / 4503599627370496) ∧ s2.calls = 2 := by
  obtain ⟨n1, n2, s1, s2, h1, h2, e1, e2, c1, c2, _⟩ :=
    Rounded.nextGaussian_pair ℚ (roundFloat 53) Rounded.sampleSqrt Rounded.sampleLog
      Rounded.sampleDrand48 Random.GaussState.init 0 1 (roundFloat_nonneg 53)
      (roundFloat_idem 53 (by norm_num)) rfl (fun j hj => absurd hj (Nat.not_lt_zero j))
      (by
        rw [show (Random.GaussState.init : Random.GaussState ℚ).calls + 2 * 0 = 0 from rfl,
          Rounded.sampleDrand48_radius]
        norm_num)
      (by norm_num)
  have hx : roundFloat 53 ((-1 / 4) * (6143810043326269 / 2251799813685248)) = (-6143810043326269 / 9007199254740992) :=
    (by rw [roundFloat_eq_self 53 ((-1 / 4) * (6143810043326269 / 2251799813685248)) (-6143810043326269) (-53) (by norm_num) (by norm_num)]; norm_num)
  have hy : roundFloat 53 ((-1 / 2) * (6143810043326269 / 2251799813685248)) = (-6143810043326269 / 4503599627370496) :=
    (by rw [roundFloat_eq_self 53 ((-1 / 2) * (6143810043326269 / 2251799813685248)) (-6143810043326269) (-52) (by norm_num) (by norm_num)]; norm_num)
  have e : (Random.GaussState.init : Random.GaussState ℚ).calls + 2 * 0 = 0 := rfl
  rw [e, Rounded.sampleDrand48_candidate_0, Rounded.sampleDrand48_radius,
    Rounded.sampleDrand48_polarFactor, hx] at e1
  rw [e, Rounded.sampleDrand48_candidate_1, Rounded.sampleDrand48_radius,
    Rounded.sampleDrand48_polarFactor, hy] at e2
  exact ⟨n1, n2, s1, s2, h1, h2, e1, e2, by rw [c2, c1]; rfl⟩

/-! ## Sums of uniform draws, with rounding -/

end RLLib
